import Mathlib

/-!
Verification development for the arXiv-summarizer worker.

The definitions below are a shallow embedding of the worker source
(`normalizePaperInput`, `extractArxivId`, `fetchArxivMeta`,
`categorizeAffiliation`, `inferCollabType` and the response-processing part of
`summarizeWithGemini`).  Strings are modelled as Lean `String`s and most string
processing is carried out on the underlying `List Char`.  Host-environment
behaviour the source relies on (the WHATWG `URL` constructor, `JSON.parse`,
JavaScript truthiness, `Math.round`, `String.prototype.trim`) is modelled
explicitly; JSON numbers are embedded as exact rationals.
-/

/-- Characters matched by JavaScript regex `\s` and removed by
`String.prototype.trim` (WhiteSpace plus LineTerminator). -/
def jsIsSpace (c : Char) : Bool :=
  let n := c.toNat
  n == 32 || n == 9 || n == 10 || n == 13 || n == 11 || n == 12 ||
  n == 0xa0 || n == 0x1680 || (0x2000 ≤ n && n ≤ 0x200a) ||
  n == 0x2028 || n == 0x2029 || n == 0x202f || n == 0x205f ||
  n == 0x3000 || n == 0xfeff

/-- Core of `String.prototype.trim` on character lists. -/
def jsTrimCore (l : List Char) : List Char :=
  ((l.dropWhile jsIsSpace).reverse.dropWhile jsIsSpace).reverse

/-- JavaScript `String.prototype.trim`. -/
def jsTrim (s : String) : String := String.mk (jsTrimCore s.data)

/-- Lowercase every character (ASCII case mapping, as the source only
compares ASCII keywords and hosts). -/
def lowerL (l : List Char) : List Char := l.map Char.toLower

/-- JavaScript `String.prototype.toLowerCase` (ASCII range). -/
def jsToLower (s : String) : String := String.mk (lowerL s.data)

/-- Index of the first occurrence of `pat` in `hay` (plain substring search;
this is the semantics of the literal-alternation regexes in the source). -/
def findSubIdx : List Char → List Char → Option Nat
  | [], pat => if pat == ([] : List Char) then some 0 else none
  | c :: t, pat =>
    if pat.isPrefixOf (c :: t) then some 0
    else (findSubIdx t pat).map (· + 1)

/-- Case-sensitive substring test, `regex.test` for literal alternations. -/
def containsSub (hay pat : String) : Bool := (findSubIdx hay.data pat.data).isSome

/-- Case-insensitive substring search (regexes with the `i` flag). -/
def findSubIdxCI (hay pat : List Char) : Option Nat :=
  findSubIdx (lowerL hay) (lowerL pat)

/-- Case-insensitive substring test. -/
def containsSubCI (hay pat : String) : Bool := (findSubIdxCI hay.data pat.data).isSome

/-- Drop everything up to and including the first (case-insensitive)
occurrence of `pat`; `none` when `pat` does not occur. -/
def splitAfterCI (hay pat : List Char) : Option (List Char) :=
  (findSubIdxCI hay pat).map (fun i => hay.drop (i + pat.length))

/-- Split on a single separator character (JavaScript `split` with a
one-character separator). -/
def splitOnChar (sep : Char) : List Char → List (List Char)
  | [] => [[]]
  | c :: t =>
    if c == sep then [] :: splitOnChar sep t
    else
      match splitOnChar sep t with
      | [] => [[c]]
      | h :: r => (c :: h) :: r

/-- Suffix test on strings (JavaScript `String.prototype.endsWith`). -/
def strEndsWith (s suf : String) : Bool := suf.data.isSuffixOf s.data

/-- Prefix test on strings. -/
def strStartsWith (s pre : String) : Bool := pre.data.isPrefixOf s.data

/-- Core of `replace(/\.pdf$/i, '')`: strip one case-insensitive `.pdf`
suffix. -/
def stripPdfExtCore (l : List Char) : List Char :=
  let r := l.reverse
  if lowerL (r.take 4) == ([ 'f', 'd', 'p', '.'] : List Char) then (r.drop 4).reverse
  else l

/-- `replace(/\.pdf$/i, '')` on strings. -/
def stripPdfExt (s : String) : String := String.mk (stripPdfExtCore s.data)

/-! ### A model of the WHATWG `URL` constructor

The source calls `new URL(input)` and reads `hostname` and `pathname`.
The model below follows the WHATWG basic URL parser for the cases the
worker can meet: leading/trailing C0-or-space trimming, removal of interior
tab/newline characters, scheme parsing, authority/host extraction (special
schemes `http`/`https` lowercase the host and reject an empty host or a
non-digit port), path splitting on `/` and `\`, and dot-segment removal.
Percent-encoded or non-ASCII hosts and percent-encoding of path code points
are outside the modelled domain (such inputs are rejected rather than
normalised); the theorems below only quantify over inputs inside the
modelled domain. -/

/-- C0 controls and space, trimmed from both ends by the URL parser. -/
def isC0OrSpace (c : Char) : Bool := c.toNat ≤ 32

/-- Tab and newline characters, removed everywhere by the URL parser. -/
def isTabOrNL (c : Char) : Bool := c == '\t' || c == '\n' || c == '\r'

/-- URL-parser trimming of C0/space at both ends. -/
def trimC0 (l : List Char) : List Char :=
  ((l.dropWhile isC0OrSpace).reverse.dropWhile isC0OrSpace).reverse

/-- Characters allowed after the first character of a URL scheme. -/
def schemeChar (c : Char) : Bool := c.isAlphanum || c == '+' || c == '-' || c == '.'

/-- Slash or backslash (special schemes treat both as separators). -/
def sepSlash (c : Char) : Bool := c == '/' || c == '\\'

/-- Characters ending the authority component of a special URL. -/
def authEnd (c : Char) : Bool := c == '/' || c == '\\' || c == '?' || c == '#'

/-- Query/fragment start. -/
def isQH (c : Char) : Bool := c == '?' || c == '#'

/-- Everything after the last `@` (the authority minus user info). -/
def afterLastAt (l : List Char) : List Char :=
  (l.reverse.takeWhile (fun c => !(c == '@'))).reverse

/-- Host code points rejected by the model: the WHATWG forbidden host code
points, plus `%` and non-ASCII (IDNA and percent-decoding of hosts are not
modelled). -/
def hostForbidden (c : Char) : Bool :=
  c.toNat == 0 || c == '\t' || c == '\n' || c == '\r' || c == ' ' ||
  c == '#' || c == '%' || c == '/' || c == ':' || c == '<' || c == '>' ||
  c == '?' || c == '@' || c == '[' || c == '\\' || c == ']' || c == '^' ||
  c == '|' || c.toNat ≥ 128

/-- Port is empty or all digits, otherwise the URL constructor throws. -/
def portOk : List Char → Bool
  | [] => true
  | _ :: p => p.all Char.isDigit

/-- Dot-segment handling of the WHATWG path state machine: `..` pops the
last segment, `.` is dropped, and either at the end of the path also leaves
a trailing empty segment. -/
def processSegs : List (List Char) → List (List Char) → List (List Char)
  | acc, [] => acc
  | acc, [s] =>
    if s == ([ '.', '.'] : List Char) then acc.dropLast ++ [[]]
    else if s == ([ '.'] : List Char) then acc ++ [[]]
    else acc ++ [s]
  | acc, s :: rest =>
    processSegs
      (if s == ([ '.', '.'] : List Char) then acc.dropLast
       else if s == ([ '.'] : List Char) then acc
       else acc ++ [s]) rest

/-- Serialize a path segment list, `/` before every segment. -/
def serializePath (segs : List (List Char)) : List Char :=
  segs.foldl (fun a s => a ++ '/' :: s) []

/-- Split the path tail on `/` and `\`. -/
def splitOnSep : List Char → List (List Char)
  | [] => [[]]
  | c :: t =>
    if sepSlash c then [] :: splitOnSep t
    else
      match splitOnSep t with
      | [] => [[c]]
      | h :: r => (c :: h) :: r

/-- Parse the path of a special URL from what follows the authority. -/
def pathOf (rest : List Char) : List Char :=
  match rest with
  | [] => [ '/']
  | c :: t =>
    if sepSlash c then
      serializePath (processSegs [] (splitOnSep (t.takeWhile (fun d => !(isQH d)))))
    else [ '/']

/-- Authority/host/path parsing for `http`/`https` URLs. -/
def parseSpecialRest (r3 : List Char) : Option (List Char × List Char) :=
  let r := r3.dropWhile sepSlash
  let auth := r.takeWhile (fun c => !(authEnd c))
  let rest := r.dropWhile (fun c => !(authEnd c))
  let hostPort := afterLastAt auth
  let host := hostPort.takeWhile (fun c => !(c == ':'))
  let portPart := hostPort.dropWhile (fun c => !(c == ':'))
  if host.isEmpty then none
  else if !(host.all (fun c => !(hostForbidden c))) then none
  else if !(portOk portPart) then none
  else some (lowerL host, pathOf rest)

/-- Non-special schemes: an opaque host (not lowercased) when `//` follows
the scheme, otherwise an empty host with an opaque path.  Ports and
percent-validation of opaque hosts are not modelled; the worker only
compares such a hostname against the literal `arxiv.org`. -/
def parseNonSpecialRest : List Char → List Char × List Char
  | '/' :: '/' :: r4 =>
    let auth := r4.takeWhile (fun c => !(c == '/' || isQH c))
    let rest := r4.dropWhile (fun c => !(c == '/' || isQH c))
    let hostPort := afterLastAt auth
    let host := hostPort.takeWhile (fun c => !(c == ':'))
    (host, rest.takeWhile (fun d => !(isQH d)))
  | r3 => ([], r3.takeWhile (fun d => !(isQH d)))

/-- Parse result of `new URL(s)`: hostname and pathname. -/
structure URLRec where
  hostname : String
  pathname : String
deriving DecidableEq

/-- Scheme parsing on the cleaned input. -/
def parseURLTail : List Char → Option (List Char × List Char)
  | [] => none
  | c :: rest =>
    if !(c.isAlpha) then none
    else
      let sch := lowerL (c :: rest.takeWhile schemeChar)
      match rest.dropWhile schemeChar with
      | ':' :: r3 =>
        if sch == ("http").data || sch == ("https").data then parseSpecialRest r3
        else some (parseNonSpecialRest r3)
      | _ => none

def parseURLCore (l : List Char) : Option (List Char × List Char) :=
  parseURLTail ((trimC0 l).filter (fun c => !(isTabOrNL c)))

/-- Model of `new URL(s)` restricted to the fields the worker reads;
`none` models the constructor throwing. -/
def parseURL (s : String) : Option URLRec :=
  (parseURLCore s.data).map (fun p => ⟨String.mk p.1, String.mk p.2⟩)

/-! ### `extractArxivId` and `normalizePaperInput` (worker source) -/

/-- Split a pathname on `/` and keep the truthy (non-empty) parts, as in
`pathname.split('/').filter(Boolean)`. -/
def pathParts (pathname : String) : List String :=
  ((splitOnChar '/' pathname.data).map String.mk).filter (fun x => !(x == ""))

/-- `extractArxivId` from the worker: last non-empty path segment of an
`arxiv.org` URL, with a `.pdf` suffix stripped; `null` when the input is not
a URL, the host does not end in `arxiv.org`, or the segment is empty. -/
def extractArxivId (input : String) : Option String :=
  match parseURL input with
  | none => none
  | some u =>
    if !(strEndsWith u.hostname ("arxiv.org")) then none
    else
      let last := stripPdfExt (((pathParts u.pathname).getLast?).getD (""))
      if last == "" then none else some last

/-- `normalizePaperInput` from the worker (the initial
`input = input.trim()` reassignment is inlined). -/
def normalizePaperInput (input : String) : String :=
  match parseURL (jsTrim input) with
  | some url =>
    if url.hostname == "arxiv.org" then
      match pathParts url.pathname with
      | p0 :: p1 :: _ =>
        if p0 == "abs" then jsTrim input
        else if p0 == "pdf" then "https://arxiv.org/abs/" ++ stripPdfExt p1
        else jsTrim input
      | [p0] => "https://arxiv.org/abs/" ++ stripPdfExt p0
      | [] => jsTrim input
    else "https://web.archive.org/web/2/" ++ jsTrim input
  | none => "https://arxiv.org/abs/" ++ jsTrim input

/-! ### `categorizeAffiliation` (worker source) -/

inductive Category where
  | Academia
  | Industry
  | Other
deriving DecidableEq

/-- String value of a category as it appears in the JSON output. -/
def Category.str : Category → String
  | .Academia => "Academia"
  | .Industry => "Industry"
  | .Other => "Other"

/-- Keyword alternation of the Academia regex in `categorizeAffiliation`. -/
def acadKws : List String :=
  ["univ", "institute", "college", "school", "laborator", "centre", "center"]

/-- Keyword alternation of the Industry regex in `categorizeAffiliation`. -/
def indKws : List String :=
  ["inc", "corp", "labs", "technolog", "systems", "company", "ltd", "llc",
   "google", "microsoft", "meta", "ibm", "amazon", "nvidia", "openai", "deepmind"]

/-- `categorizeAffiliation` from the worker: null/empty is `Other`; the
lowercased affiliation is tested against the Academia keywords first, then
the Industry keywords. -/
def categorizeAffiliation : Option String → Category
  | none => .Other
  | some aff =>
    if aff == "" then .Other
    else
      let a := jsToLower aff
      if acadKws.any (fun k => containsSub a k) then .Academia
      else if indKws.any (fun k => containsSub a k) then .Industry
      else .Other

/-! ### JSON values and `JSON.parse`

JavaScript numbers are embedded as exact rationals: every number literal a
strict `JSON.parse` accepts denotes a decimal rational, and the only
arithmetic the worker performs on them is the 0.6/0.4 score formula, which
is modelled exactly. -/

inductive Json where
  | null
  | bool (b : Bool)
  | num (q : ℚ)
  | str (s : String)
  | arr (elems : List Json)
  | obj (fields : List (String × Json))

/-- Property lookup on a JavaScript object created by `JSON.parse`: the
last occurrence of a duplicated key wins. -/
def objGet (kvs : List (String × Json)) (k : String) : Option Json :=
  kvs.foldl (fun acc p => if p.1 == k then some p.2 else acc) none

/-- `v[k]` for the property names the worker reads; `none` is JavaScript
`undefined` (property access on primitives and arrays yields `undefined`
for these non-index keys). -/
def jsGet : Json → String → Option Json
  | .obj kvs, k => objGet kvs k
  | _, _ => none

/-- JavaScript truthiness of a defined value (`NaN` cannot arise from
parsed JSON). -/
def jsTruthyV : Json → Bool
  | .null => false
  | .bool b => b
  | .num q => !(q == 0)
  | .str s => !(s == "")
  | .arr _ => true
  | .obj _ => true

/-- Truthiness of a possibly-`undefined` value. -/
def jsTruthy : Option Json → Bool
  | none => false
  | some v => jsTruthyV v

/-- `x || y` on possibly-`undefined` values. -/
def jsOrU (x y : Option Json) : Option Json := if jsTruthy x then x else y

/-- `x || d` where `d` is always defined. -/
def jsOrDefault (x : Option Json) (d : Json) : Json :=
  match x with
  | some v => if jsTruthyV v then v else d
  | none => d

/-- `Array.isArray(x) ? x : []`. -/
def asArr (x : Option Json) : List Json :=
  match x with
  | some (.arr l) => l
  | _ => []

/-- Length of a string in UTF-16 code units (JavaScript `.length`). -/
def utf16Len (s : String) : Nat :=
  (s.data.map (fun c => if c.toNat ≥ 0x10000 then 2 else 1)).sum

/-- JavaScript `x.length` for a defined value: arrays and strings have a
numeric length, a plain object yields its `length` property, anything else
yields `undefined`. -/
def jsLength : Json → Option Json
  | .arr l => some (.num l.length)
  | .str s => some (.num (utf16Len s))
  | .obj kvs => objGet kvs ("length")
  | _ => none

/-- JavaScript `Math.round`: half-up, ties toward positive infinity. -/
def jsRound (q : ℚ) : ℚ := (⌊q + 1 / 2⌋ : ℤ)

/-! #### A strict JSON parser (the model of `JSON.parse`)

Fuel-driven recursive descent.  A lone UTF-16 surrogate in a `\u` escape is
replaced by U+FFFD (Lean characters are Unicode scalars); surrogate pairs
are combined. -/

/-- JSON whitespace (strict: only space, tab, LF, CR). -/
def jsonWs (c : Char) : Bool := c == ' ' || c == '\t' || c == '\n' || c == '\r'

def pSkipWs (cs : List Char) : List Char := cs.dropWhile jsonWs

/-- Hex digit value. -/
def hexVal (c : Char) : Option Nat :=
  let n := c.toNat
  if 48 ≤ n && n ≤ 57 then some (n - 48)
  else if 97 ≤ n && n ≤ 102 then some (n - 87)
  else if 65 ≤ n && n ≤ 70 then some (n - 55)
  else none

/-- Decode a 4-digit hex escape. -/
def hex4 (a b c d : Char) : Option Nat := do
  let x1 ← hexVal a
  let x2 ← hexVal b
  let x3 ← hexVal c
  let x4 ← hexVal d
  pure (((x1 * 16 + x2) * 16 + x3) * 16 + x4)

/-- Unicode scalar for a code point, lone surrogates replaced by U+FFFD. -/
def scalarOf (n : Nat) : Char :=
  if h : n < 0xd800 then Char.ofNatAux n (by omega)
  else if h2 : 0xe000 ≤ n ∧ n < 0x110000 then Char.ofNatAux n (by omega)
  else Char.ofNat 0xfffd

/-- Parse the body of a JSON string (after the opening quote). -/
def pStrBody : Nat → List Char → Option (List Char × List Char)
  | 0, _ => none
  | _ + 1, [] => none
  | fuel + 1, c :: t =>
    if c == '"' then some ([], t)
    else if c == '\\' then
      match t with
      | 'u' :: a :: b :: d :: e :: r2 =>
        match hex4 a b d e with
        | none => none
        | some n =>
          if 0xd800 ≤ n && n ≤ 0xdbff then
            match r2 with
            | '\\' :: 'u' :: a2 :: b2 :: d2 :: e2 :: r3 =>
              match hex4 a2 b2 d2 e2 with
              | some m =>
                if 0xdc00 ≤ m && m ≤ 0xdfff then
                  (pStrBody fuel r3).map (fun p =>
                    (scalarOf (0x10000 + (n - 0xd800) * 0x400 + (m - 0xdc00)) :: p.1, p.2))
                else (pStrBody fuel r2).map (fun p => (scalarOf n :: p.1, p.2))
              | none => (pStrBody fuel r2).map (fun p => (scalarOf n :: p.1, p.2))
            | _ => (pStrBody fuel r2).map (fun p => (scalarOf n :: p.1, p.2))
          else (pStrBody fuel r2).map (fun p => (scalarOf n :: p.1, p.2))
      | e :: r2 =>
        let dec : Option Char :=
          if e == '"' then some '"'
          else if e == '\\' then some '\\'
          else if e == '/' then some '/'
          else if e == 'b' then some (Char.ofNat 8)
          else if e == 'f' then some (Char.ofNat 12)
          else if e == 'n' then some '\n'
          else if e == 'r' then some '\r'
          else if e == 't' then some '\t'
          else none
        match dec with
        | some ch => (pStrBody fuel r2).map (fun p => (ch :: p.1, p.2))
        | none => none
      | [] => none
    else if c.toNat < 0x20 then none
    else (pStrBody fuel t).map (fun p => (c :: p.1, p.2))

/-- Digits to a natural number. -/
def digitsToNat (l : List Char) : Nat :=
  l.foldl (fun acc c => acc * 10 + (c.toNat - 48)) 0

/-- Parse a JSON number (strict grammar: no leading zeros, no bare `.`). -/
def pNum (cs : List Char) : Option (ℚ × List Char) :=
  let (neg, cs1) :=
    match cs with
    | '-' :: t => (true, t)
    | _ => (false, cs)
  let intDigits := cs1.takeWhile Char.isDigit
  let r1 := cs1.dropWhile Char.isDigit
  if intDigits.isEmpty then none
  else if intDigits.length > 1 && intDigits.headD ('0') == '0' then none
  else
    let (fracDigits, r2) :=
      match r1 with
      | '.' :: t => (t.takeWhile Char.isDigit, t.dropWhile Char.isDigit)
      | _ => ([], r1)
    if r1.headD (' ') == '.' && fracDigits.isEmpty then none
    else
      let expPart : Option (Int × List Char) :=
        match r2 with
        | 'e' :: t | 'E' :: t =>
          let (esign, t2) :=
            match t with
            | '+' :: u => ((1 : Int), u)
            | '-' :: u => ((-1 : Int), u)
            | _ => ((1 : Int), t)
          let eDigits := t2.takeWhile Char.isDigit
          if eDigits.isEmpty then none
          else some (esign * (digitsToNat eDigits : Int), t2.dropWhile Char.isDigit)
        | _ => some (0, r2)
      match expPart with
      | none => none
      | some (ex, r3) =>
        let mant : Nat := digitsToNat (intDigits ++ fracDigits)
        let scaled : ℚ :=
          if ex ≥ 0 then mkRat (mant * 10 ^ ex.toNat) (10 ^ fracDigits.length)
          else mkRat mant (10 ^ fracDigits.length * 10 ^ (-ex).toNat)
        some (if neg then -scaled else scaled, r3)

mutual

/-- Parse one JSON value. -/
def pVal : Nat → List Char → Option (Json × List Char)
  | 0, _ => none
  | fuel + 1, cs =>
    match pSkipWs cs with
    | [] => none
    | 'n' :: 'u' :: 'l' :: 'l' :: r => some (.null, r)
    | 't' :: 'r' :: 'u' :: 'e' :: r => some (.bool true, r)
    | 'f' :: 'a' :: 'l' :: 's' :: 'e' :: r => some (.bool false, r)
    | '"' :: r => (pStrBody (r.length + 1) r).map (fun p => (.str (String.mk p.1), p.2))
    | '[' :: r =>
      (match pSkipWs r with
       | ']' :: r2 => some (.arr [], r2)
       | _ => (pArrItems fuel r).map (fun p => (.arr p.1, p.2)))
    | '{' :: r =>
      (match pSkipWs r with
       | '}' :: r2 => some (.obj [], r2)
       | _ => (pObjItems fuel r).map (fun p => (.obj p.1, p.2)))
    | c :: t =>
      if c == '-' || c.isDigit then (pNum (c :: t)).map (fun p => (.num p.1, p.2))
      else none

/-- Parse comma-separated array items up to `]`. -/
def pArrItems : Nat → List Char → Option (List Json × List Char)
  | 0, _ => none
  | fuel + 1, cs => do
    let (v, r) ← pVal fuel cs
    match pSkipWs r with
    | ',' :: r2 => (pArrItems fuel r2).map (fun p => (v :: p.1, p.2))
    | ']' :: r2 => some ([v], r2)
    | _ => none

/-- Parse comma-separated object members up to `}`. -/
def pObjItems : Nat → List Char → Option (List (String × Json) × List Char)
  | 0, _ => none
  | fuel + 1, cs =>
    match pSkipWs cs with
    | '"' :: r => do
      let (k, r2) ← pStrBody (r.length + 1) r
      match pSkipWs r2 with
      | ':' :: r3 => do
        let (v, r4) ← pVal fuel r3
        match pSkipWs r4 with
        | ',' :: r5 => (pObjItems fuel r5).map (fun p => ((String.mk k, v) :: p.1, p.2))
        | '}' :: r5 => some ([(String.mk k, v)], r5)
        | _ => none
      | _ => none
    | _ => none

end

/-- Model of strict `JSON.parse`: `none` is a thrown `SyntaxError`. -/
def jsonParse (s : String) : Option Json :=
  match pVal (2 * s.data.length + 2) s.data with
  | some (v, rest) => if (pSkipWs rest).isEmpty then some v else none
  | none => none

/-! ### `ArxivMeta` and `inferCollabType` (worker source) -/

/-- One entry of `authorsDetailed` as built by `fetchArxivMeta`. -/
structure AuthorDetail where
  name : String
  affiliation : Option String
  category : Category
deriving DecidableEq

/-- The `ArxivMeta` record of the worker. -/
structure ArxivMeta where
  id : Option String
  title : Option String
  abstract : Option String
  authors : List String
  absUrl : Option String
  pdfUrl : Option String
  authorsDetailed : List AuthorDetail
  codeLinks : List String
  videoLinks : List String
  modelLinks : List String
deriving DecidableEq

/-- JavaScript `x === 'name'` for a possibly-`undefined` category value:
true exactly for the equal string (objects compare by reference and can
never be `===` to a string literal). -/
def isCatStr (c : Option Json) (name : String) : Bool :=
  match c with
  | some (.str s) => s == name
  | _ => false

/-- `inferCollabType` from the worker, applied to the list of `category`
field values of its argument list. -/
def inferCollabType (cats : List (Option Json)) : String :=
  if cats.isEmpty then "Unknown"
  else
    let hasAcad := cats.any (fun c => isCatStr c ("Academia"))
    let hasInd := cats.any (fun c => isCatStr c ("Industry"))
    if hasAcad && hasInd then "Academia-Industry"
    else if hasAcad then "Academia-only"
    else if hasInd then "Industry-only"
    else "Unknown"

/-- Category values of a metadata record, as the JavaScript values
`inferCollabType` would read from `paperMeta.authorsDetailed`. -/
def metaCats (m : ArxivMeta) : List (Option Json) :=
  m.authorsDetailed.map (fun a => some (.str a.category.str))

/-! ### The `StructuredSummary` record

`Option` fields model values that can be JavaScript `undefined` (or keys
that one of the two construction branches omits); `JSON.stringify` drops
those keys, which `toJsonObj` below reproduces. -/

/-- An element of `authors_affiliations` built on the successful-parse
branch (`{ name: a.name, affiliation: a.affiliation, category: a.category }`,
each field possibly `undefined`). -/
structure JsAuthor where
  name : Option Json
  affiliation : Option Json
  category : Option Json

/-- The `resources` object (always present, three arrays). -/
structure JsResources where
  code : List Json
  video : List Json
  checkpoints : List Json

structure StructuredSummary where
  title : Option Json
  arxiv_id : Option Json
  arxiv_abs_url : Option Json
  arxiv_pdf_url : Option Json
  one_liner : Json
  simplified_summary : Option Json
  practical_problem : Option Json
  problems_solved : List Json
  key_innovations : List Json
  impact_potential : Option (List Json)
  use_cases : Option (List Json)
  benchmarks : List Json
  collaboration_type : Json
  takeaways : List Json
  notes : List Json
  resources : JsResources
  reliability_score : Option ℚ
  applicability_score : Option ℚ
  overall_score : Option ℚ
  total_authors : Option Json
  authors : List Json
  authors_affiliations : List JsAuthor
  affiliation_breakdown : Json

/-! ### Affiliation breakdown (the `reduce` over categories) -/

/-- Decimal digits of an integer (JavaScript number-to-string for the
integers that actually occur; the `1e21` exponential threshold is not
modelled). -/
def intKey (n : Int) : String :=
  if n < 0 then "-" ++ Nat.repr n.natAbs else Nat.repr n.natAbs

/-- Property-key string of a rational. JavaScript prints the shortest
round-trip decimal of a double; the model prints integers exactly and uses
an injective `num/den` form otherwise, which preserves the grouping
behaviour of `acc[key]` (no claim inspects the literal key text of
non-integer keys). -/
def jsNumKey (q : ℚ) : String :=
  if q.den == 1 then intKey q.num else intKey q.num ++ "/" ++ Nat.repr q.den

mutual

/-- JavaScript ToString of a value used as a property key
(`acc[a.category]`). -/
def jsKeyOfV : Json → String
  | .null => "null"
  | .bool b => if b then "true" else "false"
  | .num q => jsNumKey q
  | .str s => s
  | .arr l => jsKeyList l
  | .obj _ => "[object Object]"

/-- `Array.prototype.toString`: elements joined with commas, null elements
becoming empty strings. -/
def jsKeyList : List Json → String
  | [] => ""
  | [ .null] => ""
  | [x] => jsKeyOfV x
  | .null :: xs => "," ++ jsKeyList xs
  | x :: xs => jsKeyOfV x ++ "," ++ jsKeyList xs

end

/-- Key string for a possibly-`undefined` value (`acc[undefined]` uses the
key `"undefined"`). -/
def jsKeyOf : Option Json → String
  | none => "undefined"
  | some v => jsKeyOfV v

/-- One step of the reduce: `acc[k] = (acc[k] || 0) + 1`, insertion order
preserved, unknown categories appended. -/
def bumpKey : List (String × ℚ) → String → List (String × ℚ)
  | [], k => [(k, 1)]
  | (k0, v) :: t, k => if k0 == k then (k0, v + 1) :: t else (k0, v) :: bumpKey t k

/-- The `reduce` of the worker over category values, starting from
`{ Academia: 0, Industry: 0, Other: 0 }`. -/
def breakdownOf (cats : List (Option Json)) : List (String × Json) :=
  (cats.foldl (fun acc c => bumpKey acc (jsKeyOf c))
    [("Academia", 0), ("Industry", 0), ("Other", 0)]).map (fun p => (p.1, .num p.2))

/-! ### The two construction branches of `summarizeWithGemini` -/

/-- A metadata string-or-null field as a JavaScript value. -/
def optStrJs : Option String → Json
  | some t => .str t
  | none => .null

/-- `metaField || undefined`. -/
def optStrJsU (o : Option String) : Option Json := jsOrU (some (optStrJs o)) none

/-- Optional chaining `x?.k`. -/
def jsGetOpt (x : Option Json) (k : String) : Option Json :=
  match x with
  | none => none
  | some (.null) => none
  | some v => jsGet v k

/-- The degraded metadata-only summary of the catch branch
(lines 283-310 of the worker). -/
def degradedSummary (m : ArxivMeta) : StructuredSummary where
  title := optStrJsU m.title
  arxiv_id := optStrJsU m.id
  arxiv_abs_url := optStrJsU m.absUrl
  arxiv_pdf_url := optStrJsU m.pdfUrl
  one_liner := .str ("Summary generation failed, but paper metadata was retrieved.")
  simplified_summary := none
  practical_problem := none
  problems_solved := []
  key_innovations := []
  impact_potential := none
  use_cases := none
  benchmarks := []
  collaboration_type := .str (inferCollabType (metaCats m))
  takeaways := []
  notes := [ .str ("Summary generation failed - please try again")]
  resources := ⟨m.codeLinks.map Json.str, m.videoLinks.map Json.str, m.modelLinks.map Json.str⟩
  reliability_score := none
  applicability_score := none
  overall_score := none
  total_authors := some (.num m.authors.length)
  authors := m.authors.map Json.str
  authors_affiliations := m.authorsDetailed.map (fun a =>
    ⟨some (.str a.name), some (optStrJs a.affiliation), some (.str a.category.str)⟩)
  affiliation_breakdown := .obj (breakdownOf (metaCats m))

/-- `typeof parsed.reliability_score === 'number' ? … : null` (line 247). -/
def relOf (p : Json) : Option ℚ :=
  match jsGet p ("reliability_score") with
  | some (.num q) => some q
  | _ => none

/-- Line 248, for `applicability_score`. -/
def appOf (p : Json) : Option ℚ :=
  match jsGet p ("applicability_score") with
  | some (.num q) => some q
  | _ => none

/-- Line 249: the model value when numeric, else the 0.6/0.4 formula when
both components are numeric, else `null`. -/
def overallOf (p : Json) : Option ℚ :=
  match jsGet p ("overall_score") with
  | some (.num q) => some q
  | _ =>
    match relOf p, appOf p with
    | some r, some a => some (jsRound (r * (6 / 10) + a * (4 / 10)))
    | _, _ => none

/-- Line 250: the `.map` over `authors_affiliations`; `none` models the
callback throwing on a `null` element. -/
def aDetOf (p : Json) : Option (List JsAuthor) :=
  match jsGet p ("authors_affiliations") with
  | some (.arr l) =>
    l.mapM (fun a =>
      match a with
      | .null => none
      | v => some ⟨jsGet v ("name"), jsGet v ("affiliation"), jsGet v ("category")⟩)
  | _ => some []

/-- Line 251: `parsed.affiliation_breakdown || reduce(...)`. -/
def breakdownField (p : Json) (authorsDetailed : List JsAuthor) : Json :=
  match jsGet p ("affiliation_breakdown") with
  | some v =>
    if jsTruthyV v then v else .obj (breakdownOf (authorsDetailed.map (·.category)))
  | none => .obj (breakdownOf (authorsDetailed.map (·.category)))

/-- The object literal of lines 252-280. -/
def successRecord (meta : ArxivMeta) (p : Json) (authorsDetailed : List JsAuthor) :
    StructuredSummary where
  title := jsOrU (jsGet p ("title")) (optStrJsU meta.title)
  arxiv_id := jsOrU (jsGet p ("arxiv_id")) (optStrJsU meta.id)
  arxiv_abs_url := jsOrU (jsGet p ("arxiv_abs_url")) (optStrJsU meta.absUrl)
  arxiv_pdf_url := jsOrU (jsGet p ("arxiv_pdf_url")) (optStrJsU meta.pdfUrl)
  one_liner := jsOrDefault (jsGet p ("one_liner")) (.str (""))
  simplified_summary := jsOrU (jsGet p ("simplified_summary")) none
  practical_problem := jsOrU (jsGet p ("practical_problem")) none
  problems_solved := asArr (jsGet p ("problems_solved"))
  key_innovations := asArr (jsGet p ("key_innovations"))
  impact_potential := some (asArr (jsGet p ("impact_potential")))
  use_cases := some (asArr (jsGet p ("use_cases")))
  benchmarks := asArr (jsGet p ("benchmarks"))
  collaboration_type :=
    jsOrDefault (jsGet p ("collaboration_type"))
      (.str (inferCollabType (authorsDetailed.map JsAuthor.category)))
  takeaways := asArr (jsGet p ("takeaways"))
  notes := asArr (jsGet p ("notes"))
  resources :=
    ⟨asArr (jsGetOpt (jsGet p ("resources")) ("code")),
     asArr (jsGetOpt (jsGet p ("resources")) ("video")),
     asArr (jsGetOpt (jsGet p ("resources")) ("checkpoints"))⟩
  reliability_score := relOf p
  applicability_score := appOf p
  overall_score := overallOf p
  total_authors :=
    if jsTruthy (jsGet p ("total_authors")) then jsGet p ("total_authors")
    else if jsTruthy (jsGet p ("authors")) then
      match jsGet p ("authors") with
      | some v => jsLength v
      | none => none
    else some (.num 0)
  authors := asArr (jsGet p ("authors"))
  authors_affiliations := authorsDetailed
  affiliation_breakdown := breakdownField p authorsDetailed

/-- The successful-parse branch (lines 247-280 of the worker); `none`
models an exception escaping to the catch branch, which happens exactly
when `parsed` is `null` (property access throws) or when
`authors_affiliations` is an array containing `null` (the `.map` callback
throws). -/
def buildSuccess (meta : ArxivMeta) (parsed : Json) : Option StructuredSummary :=
  match parsed with
  | .null => none
  | p =>
    match aDetOf p with
    | none => none
    | some authorsDetailed => some (successRecord meta p authorsDetailed)

/-! ### Fence stripping and the resolver -/

/-- First regex `match(/```json\s*([\s\S]*?)\s*```/i)`: the capture sits
between the first occurrence of the opening fence and the next triple
backtick, surrounding whitespace absorbed.  (The regex engine would also
retry later opening fences when the first has no closing fence; the model
keeps the first-occurrence case, which agrees on every actual match.) -/
def fenceJson (t : List Char) : Option (List Char) :=
  match splitAfterCI t ("```json").data with
  | none => none
  | some rest =>
    match findSubIdx rest ("```").data with
    | none => none
    | some i => some (jsTrimCore (rest.take i))

/-- Second regex `match(/```\s*([\s\S]*?)\s*```/i)`. -/
def fencePlain (t : List Char) : Option (List Char) :=
  match splitAfterCI t ("```").data with
  | none => none
  | some rest =>
    match findSubIdx rest ("```").data with
    | none => none
    | some i => some (jsTrimCore (rest.take i))

/-- Lines 242-244 of the worker: trim the model text, then strip one
fenced code block if present (the `fenced[1].trim()` is folded into the
capture, whose surrounding `\s*` uses the same whitespace set). -/
def extractJsonStr (text : String) : String :=
  match fenceJson (jsTrimCore text.data) with
  | some inner => String.mk inner
  | none =>
    match fencePlain (jsTrimCore text.data) with
    | some inner => String.mk inner
    | none => String.mk (jsTrimCore text.data)

/-- The response-processing part of `summarizeWithGemini`, from the model
text output (`data?.candidates?.[0]?.content?.parts?.[0]?.text || ''`) and
the fetched metadata to the returned `StructuredSummary`. -/
def resolveText (meta : ArxivMeta) (text : String) : StructuredSummary :=
  match jsonParse (extractJsonStr text) with
  | none => degradedSummary meta
  | some parsed =>
    match buildSuccess meta parsed with
    | some s => s
    | none => degradedSummary meta

/-! ### `JSON.stringify` of the result (undefined-valued keys dropped) -/

def encField (k : String) (v : Option Json) : List (String × Json) :=
  match v with
  | none => []
  | some x => [(k, x)]

def encQ (k : String) (v : Option ℚ) : List (String × Json) :=
  match v with
  | none => []
  | some q => [(k, .num q)]

def encAuthor (a : JsAuthor) : Json :=
  .obj (encField ("name") a.name ++ encField ("affiliation") a.affiliation ++
    encField ("category") a.category)

/-- The serialized object: every key of the construction branches, in
order, with `undefined`-valued (or branch-omitted) keys dropped exactly as
`JSON.stringify` drops them. -/
def toJsonObj (s : StructuredSummary) : List (String × Json) :=
  encField ("title") s.title ++ encField ("arxiv_id") s.arxiv_id ++
  encField ("arxiv_abs_url") s.arxiv_abs_url ++
  encField ("arxiv_pdf_url") s.arxiv_pdf_url ++
  [("one_liner", s.one_liner)] ++
  encField ("simplified_summary") s.simplified_summary ++
  encField ("practical_problem") s.practical_problem ++
  [("problems_solved", .arr s.problems_solved),
   ("key_innovations", .arr s.key_innovations)] ++
  (match s.impact_potential with
   | none => []
   | some l => [(("impact_potential" : String), Json.arr l)]) ++
  (match s.use_cases with
   | none => []
   | some l => [(("use_cases" : String), Json.arr l)]) ++
  [("benchmarks", .arr s.benchmarks),
   ("collaboration_type", s.collaboration_type),
   ("takeaways", .arr s.takeaways),
   ("notes", .arr s.notes),
   ("resources", .obj
     [("code", .arr s.resources.code),
      ("video", .arr s.resources.video),
      ("checkpoints", .arr s.resources.checkpoints)])] ++
  encQ ("reliability_score") s.reliability_score ++
  encQ ("applicability_score") s.applicability_score ++
  encQ ("overall_score") s.overall_score ++
  encField ("total_authors") s.total_authors ++
  [("authors", .arr s.authors),
   ("authors_affiliations", .arr (s.authors_affiliations.map encAuthor)),
   ("affiliation_breakdown", s.affiliation_breakdown)]

/-! ### `fetchArxivMeta` (worker source)

The network is modelled by an oracle `net : String → Option FetchResp`
(`none` is a rejected `fetch`), and `fetchArxivMeta` additionally returns
the list of URLs it requested.  The prompt template of `buildPrompt` is a
constant string asset consumed only by the LLM call and is not modelled. -/

/-- An HTTP response: `ok` is derived from the status as in the Fetch API. -/
structure FetchResp where
  status : Nat
  body : String
deriving DecidableEq

/-- `res.ok`. -/
def respOk (r : FetchResp) : Bool := 200 ≤ r.status && r.status ≤ 299

/-- UTF-8 bytes of a character. -/
def utf8Bytes (c : Char) : List Nat :=
  let n := c.toNat
  if n < 0x80 then [n]
  else if n < 0x800 then [0xc0 + n / 64, 0x80 + n % 64]
  else if n < 0x10000 then [0xe0 + n / 4096, 0x80 + n / 64 % 64, 0x80 + n % 64]
  else [0xf0 + n / 262144, 0x80 + n / 4096 % 64, 0x80 + n / 64 % 64, 0x80 + n % 64]

/-- Uppercase hex digit. -/
def hexDigit (n : Nat) : Char := if n < 10 then Char.ofNat (48 + n) else Char.ofNat (55 + n)

/-- Characters `encodeURIComponent` leaves unescaped. -/
def uriUnreserved (c : Char) : Bool :=
  (c.isAlphanum && c.toNat < 128) || c == '-' || c == '_' || c == '.' ||
  c == '!' || c == '~' || c == '*' || c == Char.ofNat 39 || c == '(' || c == ')'

/-- JavaScript `encodeURIComponent` (Lean characters are Unicode scalars,
so the lone-surrogate `URIError` cannot arise). -/
def encodeURIComponent (s : String) : String :=
  String.mk (s.data.flatMap (fun c =>
    if uriUnreserved c then [c]
    else (utf8Bytes c).flatMap (fun b => [ '%', hexDigit (b / 16), hexDigit (b % 16)])))

/-- `replace(/\s+/g, ' ')` followed by `.trim()`. -/
def wsToSpace (l : List Char) : List Char := l.map (fun c => if jsIsSpace c then ' ' else c)

def squeezeSpaces : List Char → List Char
  | [] => []
  | [c] => [c]
  | a :: b :: t =>
    if a == ' ' && b == ' ' then squeezeSpaces (b :: t)
    else a :: squeezeSpaces (b :: t)

def collapseWS (l : List Char) : List Char := jsTrimCore (squeezeSpaces (wsToSpace l))

/-- Capture between the first occurrence of `openPat` and the next
occurrence of `closePat` (the shape of the lazy `A([\s\S]*?)B` regexes of
the source; the engine would retry a later `A` when no `B` follows, which
cannot change any actual match). Returns the capture and the remainder. -/
def captureBetweenCI (hay openPat closePat : List Char) : Option (List Char × List Char) :=
  match splitAfterCI hay openPat with
  | none => none
  | some rest =>
    match findSubIdxCI rest closePat with
    | none => none
    | some i => some (rest.take i, rest.drop (i + closePat.length))

/-- Skip `[^>]*>`: drop to the first `>` and consume it. -/
def skipToGt (l : List Char) : Option (List Char) :=
  match l.dropWhile (fun c => !(c == '>')) with
  | '>' :: r => some r
  | _ => none

/-- First `<entry>…<title>(…)</title>` capture, whitespace collapsed. -/
def entryTitle (xml : List Char) : Option String :=
  match splitAfterCI xml ("<entry>").data with
  | none => none
  | some r1 =>
    match captureBetweenCI r1 ("<title>").data ("</title>").data with
    | none => none
    | some (cap, _) => some (String.mk (collapseWS cap))

/-- First `<summary>(…)</summary>` capture, whitespace collapsed. -/
def summaryOf (xml : List Char) : Option String :=
  match captureBetweenCI xml ("<summary>").data ("</summary>").data with
  | none => none
  | some (cap, _) => some (String.mk (collapseWS cap))

/-- All `<author>(…)</author>` blocks, in order. -/
def authorBlocks : Nat → List Char → List (List Char)
  | 0, _ => []
  | fuel + 1, cs =>
    match captureBetweenCI cs ("<author>").data ("</author>").data with
    | none => []
    | some (cap, rest) => cap :: authorBlocks fuel rest

/-- `<name>(…)</name>` inside an author block. -/
def nameOf (block : List Char) : Option String :=
  match captureBetweenCI block ("<name>").data ("</name>").data with
  | none => none
  | some (cap, _) => some (String.mk (collapseWS cap))

/-- `<arxiv:affiliation[^>]*>(…)</arxiv:affiliation>` inside a block. -/
def affOf (block : List Char) : Option String :=
  match splitAfterCI block ("<arxiv:affiliation").data with
  | none => none
  | some r =>
    match skipToGt r with
    | none => none
    | some r2 =>
      match findSubIdxCI r2 ("</arxiv:affiliation>").data with
      | none => none
      | some i => some (String.mk (collapseWS (r2.take i)))

/-- The `forEach` over author blocks: an author is kept when its collapsed
name is truthy (non-empty); the affiliation stays `null` when absent. -/
def atomAuthors (blocks : List (List Char)) : List (String × AuthorDetail) :=
  blocks.filterMap (fun b =>
    match nameOf b with
    | none => none
    | some name =>
      if name == "" then none
      else
        let aff := affOf b
        some (name, ⟨name, aff, categorizeAffiliation aff⟩))

/-- The metadata record built on the primary (Atom API) path. -/
def atomMeta (id : String) (xml : String) : ArxivMeta :=
  let entries := atomAuthors (authorBlocks (xml.data.length + 1) xml.data)
  { id := some id
    title := entryTitle xml.data
    abstract := summaryOf xml.data
    authors := entries.map Prod.fst
    absUrl := some ("https://arxiv.org/abs/" ++ id)
    pdfUrl := some ("https://arxiv.org/pdf/" ++ id ++ ".pdf")
    authorsDetailed := entries.map Prod.snd
    codeLinks := []
    videoLinks := []
    modelLinks := [] }

/-- Remove `<[^>]+>` tag runs (a `<` with no later `>` or an empty `<>` is
kept, as the regex requires at least one non-`>` character). -/
def stripTags : Nat → List Char → List Char
  | 0, l => l
  | _ + 1, [] => []
  | fuel + 1, c :: t =>
    if c == '<' then
      match findSubIdx t ([ '>'] : List Char) with
      | some i => if 1 ≤ i then stripTags fuel (t.drop (i + 1)) else c :: stripTags fuel t
      | none => c :: stripTags fuel t
    else c :: stripTags fuel t

/-- No JavaScript line terminator (regex `.` does not match these). -/
def noLineTerm (l : List Char) : Bool :=
  l.all (fun c => !(c == '\n' || c == '\r' || c.toNat == 0x2028 || c.toNat == 0x2029))

/-- The `<h1 class="title">` scrape of the HTML fallback path.  Lazy
sub-matches are taken at their first occurrence; a page on which the regex
engine would backtrack to a later `<span>` (a line terminator inside
`.*?`) is modelled as no match. -/
def titleScrape (html : List Char) : Option String :=
  match splitAfterCI html ("<h1 class=\"title\">").data with
  | none => none
  | some r1 =>
    match splitAfterCI r1 ("<span").data with
    | none => none
    | some r2 =>
      match skipToGt r2 with
      | none => none
      | some r3 =>
        match findSubIdxCI r3 ("</span>").data with
        | none => none
        | some i =>
          if !(noLineTerm (r3.take i)) then none
          else
            let r5 := (r3.drop (i + 7)).dropWhile jsIsSpace
            match findSubIdxCI r5 ("</h1>").data with
            | none => none
            | some j =>
              some (String.mk (collapseWS (stripTags (j + 1) (r5.take j))))

/-- The `<blockquote class="abstract…">` scrape of the fallback path. -/
def abstractScrape (html : List Char) : Option String :=
  match splitAfterCI html ("<blockquote class=\"abstract").data with
  | none => none
  | some r1 =>
    match r1.dropWhile (fun c => !(c == '"')) with
    | '"' :: '>' :: r3 =>
      let r4 := r3.dropWhile jsIsSpace
      if !(lowerL (r4.take 5) == ("<span").data) then none
      else
        match skipToGt (r4.drop 5) with
        | none => none
        | some r5 =>
          match findSubIdxCI r5 ("</span>").data with
          | none => none
          | some i =>
            if !(noLineTerm (r5.take i)) then none
            else
              let r6 := r5.drop (i + 7)
              match findSubIdxCI r6 ("</blockquote>").data with
              | none => none
              | some j =>
                some (String.mk (collapseWS (stripTags (j + 1) (r6.take j))))
    | _ => none

/-- `matchAll(/<div class="authors">[\s\S]*?<a[^>]*>([\s\S]*?)<\/a>/gi)`:
one anchor capture per authors-div, scanning resumes after each match. -/
def authorsScrape : Nat → List Char → List String
  | 0, _ => []
  | fuel + 1, cs =>
    match splitAfterCI cs ("<div class=\"authors\">").data with
    | none => []
    | some r1 =>
      match splitAfterCI r1 ("<a").data with
      | none => []
      | some r2 =>
        match skipToGt r2 with
        | none => []
        | some r3 =>
          match findSubIdxCI r3 ("</a>").data with
          | none => []
          | some i =>
            String.mk (collapseWS (stripTags (i + 1) (r3.take i)))
              :: authorsScrape fuel (r3.drop (i + 4))

/-- All occurrences of `pat` in `hay` (start indices, ascending). -/
def allSubIdxs : Nat → List Char → List Char → Nat → List Nat
  | 0, _, _, _ => []
  | fuel + 1, hay, pat, base =>
    match findSubIdx hay pat with
    | none => []
    | some i => (base + i) :: allSubIdxs fuel (hay.drop (i + 1)) pat (base + i + 1)

/-- Try the `href="(https?:[^"#]+)"` tail at offset `j` of the tag run.
Returns the capture and the offset just past the closing quote. -/
def hrefTry (tagRun : List Char) (j : Nat) : Option (List Char × Nat) :=
  let v := tagRun.drop (j + 6)
  let plen : Nat :=
    if lowerL (v.take 6) == ("https:").data then 6
    else if lowerL (v.take 5) == ("http:").data then 5
    else 0
  if plen == 0 then none
  else
    let rest := v.drop plen
    let body := rest.takeWhile (fun c => !(c == '"' || c == '#'))
    if body.isEmpty then none
    else
      match rest.drop body.length with
      | '"' :: _ => some (v.take plen ++ body, j + 6 + plen + body.length + 1)
      | _ => none

def firstSomeAux {α : Type} : List Nat → (Nat → Option α) → Option α
  | [], _ => none
  | j :: t, f =>
    match f j with
    | some x => some x
    | none => firstSomeAux t f

/-- The greedy `[^>]+` backtracks from the right, so of several `href="`
occurrences inside one tag run the rightmost that completes the pattern
wins; an occurrence immediately after `<a` (offset 0) cannot satisfy
`[^>]+`. -/
def hrefPick (tagRun : List Char) : Option (List Char × Nat) :=
  firstSomeAux
    ((allSubIdxs (tagRun.length + 1) tagRun (("href=\"").data) 0).filter (fun j => 1 ≤ j)).reverse
    (hrefTry tagRun)

/-- `matchAll(/<a[^>]+href="(https?:[^"#]+)"/gi)`: raw captured link texts
in match order. -/
def anchorLinks : Nat → List Char → List (List Char)
  | 0, _ => []
  | fuel + 1, cs =>
    match findSubIdxCI cs ([ '<', 'a'] : List Char) with
    | none => []
    | some i =>
      let afterA := cs.drop (i + 2)
      let tagRun := afterA.takeWhile (fun c => !(c == '>'))
      match hrefPick tagRun with
      | some (link, consumed) => link :: anchorLinks fuel (afterA.drop consumed)
      | none => anchorLinks fuel afterA

/-- `replace(/&amp;/g, '&')`. -/
def decodeAmp : Nat → List Char → List Char
  | 0, l => l
  | _ + 1, [] => []
  | fuel + 1, c :: t =>
    if (c :: t).take 5 == ("&amp;").data then '&' :: decodeAmp fuel (t.drop 4)
    else c :: decodeAmp fuel t

/-- `replace(/#.*$/, '')`: dead code for captured links (the capture class
excludes `#`); modelled as cutting at the first hash when the tail holds no
newline. -/
def stripHashTail (l : List Char) : List Char :=
  match findSubIdx l ([ '#'] : List Char) with
  | none => l
  | some i => if (l.drop i).any (fun c => c == '\n') then l else l.take i

/-- The per-link processing of the fallback path. -/
def processLink (l : List Char) : String :=
  String.mk (stripHashTail (jsTrimCore (decodeAmp (l.length + 1) l)))

/-- The metadata record built on the HTML-fallback path. -/
def scrapeMeta (absUrl pdfUrl : String) (html : String) : ArxivMeta :=
  let h := html.data
  let authors := (authorsScrape (h.length + 1) h).filter (fun a => !(a == ""))
  let links := (anchorLinks (h.length + 1) h).map processLink
  { id := none
    title := titleScrape h
    abstract := abstractScrape h
    authors := authors
    absUrl := some absUrl
    pdfUrl := some pdfUrl
    authorsDetailed := authors.map (fun name => ⟨name, none, .Other⟩)
    codeLinks := links.filter (fun l => containsSubCI l ("github.com/"))
    videoLinks := links.filter (fun l => !(containsSubCI l ("github.com/")) &&
      (containsSubCI l ("youtu.com") || containsSubCI l ("youtube.com") ||
       containsSubCI l ("vimeo.com")))
    modelLinks := links.filter (fun l => !(containsSubCI l ("github.com/")) &&
      !(containsSubCI l ("youtu.com") || containsSubCI l ("youtube.com") ||
        containsSubCI l ("vimeo.com")) && containsSubCI l ("huggingface.co/"))
    }

/-- The empty metadata record of the no-fetch paths. -/
def baseMeta : ArxivMeta := ⟨none, none, none, [], none, none, [], [], [], []⟩

/-- The arXiv Atom API query URL. -/
def apiUrlOf (id : String) : String :=
  "https://export.arxiv.org/api/query?id_list=" ++ encodeURIComponent id

/-- `fetchArxivMeta` from the worker, over a network oracle; the second
component records the outbound requests in order.  On the primary path a
rejected fetch or a non-success status is a thrown error; on the fallback
path every failure is swallowed. -/
def fetchArxivMeta (net : String → Option FetchResp) (url : String) :
    Except String ArxivMeta × List String :=
  match extractArxivId url with
  | some id =>
    let apiUrl := apiUrlOf id
    match net apiUrl with
    | none => (.error ("fetch failed"), [apiUrl])
    | some res =>
      if !(respOk res) then (.error ("arXiv API error " ++ Nat.repr res.status), [apiUrl])
      else (.ok (atomMeta id res.body), [apiUrl])
  | none =>
    match parseURL url with
    | none => (.ok baseMeta, [])
    | some u =>
      if strEndsWith u.hostname ("arxiv.org") then
        let id2 := stripPdfExt (((pathParts u.pathname).getLast?).getD (""))
        let absUrl := "https://arxiv.org/abs/" ++ id2
        let pdfUrl := "https://arxiv.org/pdf/" ++ id2 ++ ".pdf"
        match net absUrl with
        | none => (.ok { baseMeta with absUrl := some absUrl, pdfUrl := some pdfUrl }, [absUrl])
        | some res => (.ok (scrapeMeta absUrl pdfUrl res.body), [absUrl])
      else (.ok baseMeta, [])

/-! ### Concrete fixtures used by the witnesses -/

/-- A network oracle answering HTTP 500 everywhere. -/
def err500net : String → Option FetchResp := fun _ => some ⟨500, ("upstream broke")⟩

/-- A network oracle answering HTTP 200 everywhere. -/
def okNet : String → Option FetchResp := fun _ => some ⟨200, ("body")⟩

/-- A fully populated scraped-metadata record. -/
def sampleMeta : ArxivMeta :=
  { id := some ("2506.01667")
    title := some ("Deep Paper")
    abstract := some ("A study.")
    authors := ["Ada Lovelace", "Bob"]
    absUrl := some ("https://arxiv.org/abs/2506.01667")
    pdfUrl := some ("https://arxiv.org/pdf/2506.01667.pdf")
    authorsDetailed := [⟨"Ada Lovelace", some ("Oxford University"), .Academia⟩, ⟨"Bob", none, .Other⟩]
    codeLinks := ["https://github.com/x/y"]
    videoLinks := ["https://youtube.com/watch?v=1"]
    modelLinks := ["https://huggingface.co/m"] }

/-- The fenced model text with a language tag. -/
def fencedJson (j : String) : String := "```json\n" ++ j ++ "\n```"

/-- The fenced model text without a language tag. -/
def fencedPlain (j : String) : String := "```\n" ++ j ++ "\n```"

/-- A model output with component scores but no overall score. -/
def c7text : String := "\x7b\"reliability_score\": 80, \"applicability_score\": 50\x7d"

/-- The parse of `c7text`. -/
def c7parsed : Json := (jsonParse (extractJsonStr c7text)).getD .null

/-- The summary the worker resolves from `c7text`. -/
def c7summary : StructuredSummary :=
  (buildSuccess baseMeta c7parsed).getD (degradedSummary baseMeta)

/-- A model output with both component scores, no overall score, and a
`null` entry in `authors_affiliations`. -/
def c7badText : String :=
  "\x7b\"reliability_score\": 80, \"applicability_score\": 50, \"authors_affiliations\": [null]\x7d"

/-- The parse of `c7badText`. -/
def c7badParsed : Json := (jsonParse (extractJsonStr c7badText)).getD .null

set_option maxRecDepth 40000

/-- Claim C1 counterexample: `categorizeAffiliation ("MIT")` is `Other`, not
`Academia` as the spec's test battery states: "mit" contains no Academia
keyword. -/
theorem c1_counterexample :
    categorizeAffiliation (some ("MIT")) = Category.Other ∧
    categorizeAffiliation (some ("MIT")) ≠ Category.Academia := by
  decide

/-- Claim C1 (amended): the classifier's actual battery is
`null ↦ Other`, `"MIT" ↦ Other`, `"Google Inc" ↦ Industry`,
`"Springfield Researchers Collective" ↦ Other`, and the Academia keyword set
takes precedence over the Industry one on every non-empty affiliation. -/
theorem c1_amended :
    categorizeAffiliation none = Category.Other ∧
    categorizeAffiliation (some ("MIT")) = Category.Other ∧
    categorizeAffiliation (some ("Google Inc")) = Category.Industry ∧
    categorizeAffiliation (some ("Springfield Researchers Collective")) = Category.Other ∧
    ∀ aff : String, (aff == "") = false →
      acadKws.any (fun k => containsSub (jsToLower aff) k) = true →
      categorizeAffiliation (some aff) = Category.Academia := by
  refine ⟨by decide, by decide, by decide, by decide, ?_⟩
  intro aff h1 h2
  simp [categorizeAffiliation, h1, h2]

theorem c1_amended_witness :
    (("Google University" == "") = false ∧
      acadKws.any (fun k => containsSub (jsToLower ("Google University")) k) = true) ∧
    categorizeAffiliation (some ("Google University")) = Category.Academia :=
  ⟨⟨by decide, by decide⟩,
   c1_amended.2.2.2.2 ("Google University") (by decide) (by decide)⟩

theorem isCatStr_iff (c : Option Json) (n : String) :
    isCatStr c n = true ↔ c = some (.str n) := by
  cases c with
  | none => simp [isCatStr]
  | some v => cases v <;> simp [isCatStr]

/-- Claim C6. -/
theorem c6_inferCollabType (cats : List (Option Json)) :
    (cats = [] → inferCollabType cats = "Unknown") ∧
    ((∃ c ∈ cats, c = some (.str ("Academia"))) → (∃ c ∈ cats, c = some (.str ("Industry"))) →
      inferCollabType cats = "Academia-Industry") ∧
    ((∃ c ∈ cats, c = some (.str ("Academia"))) → ¬ (∃ c ∈ cats, c = some (.str ("Industry"))) →
      inferCollabType cats = "Academia-only") ∧
    (¬ (∃ c ∈ cats, c = some (.str ("Academia"))) → (∃ c ∈ cats, c = some (.str ("Industry"))) →
      inferCollabType cats = "Industry-only") ∧
    (cats ≠ [] → ¬ (∃ c ∈ cats, c = some (.str ("Academia"))) →
      ¬ (∃ c ∈ cats, c = some (.str ("Industry"))) → inferCollabType cats = "Unknown") := by
  have hA : (cats.any (fun c => isCatStr c ("Academia")) = true) ↔
      ∃ c ∈ cats, c = some (.str ("Academia")) := by
    rw [List.any_eq_true]
    exact ⟨fun ⟨c, hc, h⟩ => ⟨c, hc, (isCatStr_iff c _).mp h⟩,
           fun ⟨c, hc, h⟩ => ⟨c, hc, (isCatStr_iff c _).mpr h⟩⟩
  have hI : (cats.any (fun c => isCatStr c ("Industry")) = true) ↔
      ∃ c ∈ cats, c = some (.str ("Industry")) := by
    rw [List.any_eq_true]
    exact ⟨fun ⟨c, hc, h⟩ => ⟨c, hc, (isCatStr_iff c _).mp h⟩,
           fun ⟨c, hc, h⟩ => ⟨c, hc, (isCatStr_iff c _).mpr h⟩⟩
  refine ⟨fun h => by simp [inferCollabType, h], ?_, ?_, ?_, ?_⟩
  · intro ha hi
    have h1 := hA.mpr ha
    have h2 := hI.mpr hi
    have hne : cats.isEmpty = false := by
      rcases ha with ⟨c, hc, _⟩
      simp [List.isEmpty_iff]
      exact fun h => by simp [h] at hc
    simp [inferCollabType, hne, h1, h2]
  · intro ha hi
    have h1 := hA.mpr ha
    have h2 : cats.any (fun c => isCatStr c ("Industry")) = false := by
      rw [Bool.eq_false_iff]
      exact fun h => hi (hI.mp h)
    have hne : cats.isEmpty = false := by
      rcases ha with ⟨c, hc, _⟩
      simp [List.isEmpty_iff]
      exact fun h => by simp [h] at hc
    simp [inferCollabType, hne, h1, h2]
  · intro ha hi
    have h1 : cats.any (fun c => isCatStr c ("Academia")) = false := by
      rw [Bool.eq_false_iff]
      exact fun h => ha (hA.mp h)
    have h2 := hI.mpr hi
    have hne : cats.isEmpty = false := by
      rcases hi with ⟨c, hc, _⟩
      simp [List.isEmpty_iff]
      exact fun h => by simp [h] at hc
    simp [inferCollabType, hne, h1, h2]
  · intro hne ha hi
    have h1 : cats.any (fun c => isCatStr c ("Academia")) = false := by
      rw [Bool.eq_false_iff]
      exact fun h => ha (hA.mp h)
    have h2 : cats.any (fun c => isCatStr c ("Industry")) = false := by
      rw [Bool.eq_false_iff]
      exact fun h => hi (hI.mp h)
    have hne2 : cats.isEmpty = false := by simp [List.isEmpty_iff, hne]
    simp [inferCollabType, hne2, h1, h2]

theorem c6_witness :
    inferCollabType [] = "Unknown" ∧
    inferCollabType [some (.str ("Academia"))] = "Academia-only" ∧
    inferCollabType [some (.str ("Academia")), some (.str ("Industry"))] = "Academia-Industry" ∧
    inferCollabType [some (.str ("Other"))] = "Unknown" := by
  refine ⟨(c6_inferCollabType []).1 rfl, ?_, ?_, ?_⟩
  · refine (c6_inferCollabType _).2.2.1 ⟨_, List.mem_singleton.mpr rfl, rfl⟩ ?_
    rintro ⟨c, hc, h⟩
    rw [List.mem_singleton.mp hc] at h
    simp at h
  · exact (c6_inferCollabType _).2.1 ⟨_, by simp, rfl⟩ ⟨_, by simp, rfl⟩
  · refine (c6_inferCollabType _).2.2.2.2 (by simp) ?_ ?_
    · rintro ⟨c, hc, h⟩
      rw [List.mem_singleton.mp hc] at h
      simp at h
    · rintro ⟨c, hc, h⟩
      rw [List.mem_singleton.mp hc] at h
      simp at h

/-- Claim C4. -/
theorem c4_upstream_error (net : String → Option FetchResp) (url id : String) (res : FetchResp)
    (hid : extractArxivId url = some id)
    (hnet : net (apiUrlOf id) = some res)
    (hok : respOk res = false) :
    fetchArxivMeta net url =
      (.error ("arXiv API error " ++ Nat.repr res.status), [apiUrlOf id]) := by
  unfold fetchArxivMeta
  rw [hid]
  simp only [hnet, hok]
  rfl

theorem c4_witness :
    extractArxivId ("https://arxiv.org/abs/2506.01667") = some ("2506.01667") ∧
    respOk ⟨500, ("upstream broke")⟩ = false ∧
    fetchArxivMeta err500net ("https://arxiv.org/abs/2506.01667") =
      (.error ("arXiv API error 500"),
       ["https://export.arxiv.org/api/query?id_list=2506.01667"]) :=
  ⟨by decide, by decide,
   c4_upstream_error err500net ("https://arxiv.org/abs/2506.01667") ("2506.01667")
     ⟨500, ("upstream broke")⟩ (by decide) rfl (by decide)⟩

/-- Claim C10. -/
theorem c10_no_fetch (net : String → Option FetchResp) (url : String) (r : URLRec)
    (hp : parseURL url = some r)
    (hh : strEndsWith r.hostname ("arxiv.org") = false) :
    fetchArxivMeta net url =
      (.ok ⟨none, none, none, [], none, none, [], [], [], []⟩, []) := by
  have hid : extractArxivId url = none := by
    unfold extractArxivId
    rw [hp]
    simp [hh]
  unfold fetchArxivMeta
  rw [hid, hp]
  simp [hh]
  rfl

theorem c10_witness :
    parseURL ("https://web.archive.org/web/2/https://example.com/p") =
      some ⟨"web.archive.org", "/web/2/https://example.com/p"⟩ ∧
    strEndsWith ("web.archive.org") ("arxiv.org") = false ∧
    fetchArxivMeta okNet ("https://web.archive.org/web/2/https://example.com/p") =
      (.ok ⟨none, none, none, [], none, none, [], [], [], []⟩, []) :=
  ⟨by decide, by decide,
   c10_no_fetch okNet ("https://web.archive.org/web/2/https://example.com/p")
     ⟨"web.archive.org", "/web/2/https://example.com/p"⟩ (by decide) (by decide)⟩

/-- Claim C3. -/
theorem c3_parse_failure (meta : ArxivMeta) (text : String)
    (h : jsonParse (extractJsonStr text) = none) :
    resolveText meta text = degradedSummary meta ∧
    (resolveText meta text).one_liner =
      .str ("Summary generation failed, but paper metadata was retrieved.") ∧
    (resolveText meta text).notes = [ .str ("Summary generation failed - please try again")] ∧
    (resolveText meta text).problems_solved = [] ∧
    (resolveText meta text).key_innovations = [] ∧
    (resolveText meta text).takeaways = [] ∧
    (resolveText meta text).benchmarks = [] ∧
    (resolveText meta text).resources =
      ⟨meta.codeLinks.map Json.str, meta.videoLinks.map Json.str, meta.modelLinks.map Json.str⟩ ∧
    (resolveText meta text).collaboration_type = .str (inferCollabType (metaCats meta)) := by
  have h0 : resolveText meta text = degradedSummary meta := by
    unfold resolveText
    rw [h]
  rw [h0]
  exact ⟨rfl, rfl, rfl, rfl, rfl, rfl, rfl, rfl, rfl⟩

theorem c3_witness :
    jsonParse (extractJsonStr ("no valid JSON here")) = none ∧
    resolveText sampleMeta ("no valid JSON here") = degradedSummary sampleMeta ∧
    (resolveText sampleMeta ("no valid JSON here")).notes =
      [ .str ("Summary generation failed - please try again")] ∧
    (resolveText sampleMeta ("no valid JSON here")).resources =
      ⟨[ .str ("https://github.com/x/y")], [ .str ("https://youtube.com/watch?v=1")],
       [ .str ("https://huggingface.co/m")]⟩ :=
  ⟨rfl,
   (c3_parse_failure sampleMeta ("no valid JSON here") rfl).1,
   (c3_parse_failure sampleMeta ("no valid JSON here") rfl).2.2.1,
   (c3_parse_failure sampleMeta ("no valid JSON here") rfl).2.2.2.2.2.2.2.1⟩

/-- Claim C9: the code bug demonstration. -/
theorem c9_total_authors_dropped :
    ((toJsonObj (resolveText baseMeta ("\x7b\"authors\": 5\x7d"))).map Prod.fst).contains
      ("total_authors") = false ∧
    ((toJsonObj (resolveText baseMeta ("\x7b\x7d"))).map Prod.fst).contains
      ("total_authors") = true ∧
    ((toJsonObj (resolveText baseMeta ("\x7b\"authors\": 5\x7d"))).map Prod.fst).contains
      ("one_liner") = true ∧
    ((toJsonObj (resolveText baseMeta ("\x7b\"authors\": 5\x7d"))).map Prod.fst).contains
      ("collaboration_type") = true := by
  with_unfolding_all decide

/-- Claim C7 (amended): the 0.6/0.4 formula holds whenever the extracted
text parses, the success branch completes (`buildSuccess` returns a record),
the parsed `overall_score` is absent or non-numeric, and both component
scores are numeric.  The completion hypothesis is necessary: a `null` entry
in `authors_affiliations` makes the `.map` callback throw, the resolver
degrades, and `overall_score` is absent (see the counterexample). -/
theorem c7_overall_score (meta : ArxivMeta) (text : String) (p : Json) (s : StructuredSummary)
    (r a : ℚ)
    (hp : jsonParse (extractJsonStr text) = some p)
    (hb : buildSuccess meta p = some s)
    (hov : ∀ q : ℚ, jsGet p ("overall_score") ≠ some (.num q))
    (hr : jsGet p ("reliability_score") = some (.num r))
    (ha : jsGet p ("applicability_score") = some (.num a)) :
    resolveText meta text = s ∧
    s.overall_score = some (jsRound (r * (6 / 10) + a * (4 / 10))) := by
  have hres : resolveText meta text =
      (match buildSuccess meta p with
       | some s0 => s0
       | none => degradedSummary meta) := by
    unfold resolveText
    rw [hp]
  have hnotnull : p ≠ Json.null := by
    intro h
    rw [h] at hr
    exact Option.noConfusion hr
  have hb2 : (match aDetOf p with
      | none => none
      | some l => some (successRecord meta p l)) = some s := by
    rw [← hb]
    unfold buildSuccess
    cases p <;> first | exact absurd rfl hnotnull | rfl
  rcases hdet : aDetOf p with _ | l
  · rw [hdet] at hb2
    exact absurd hb2 (by simp)
  · rw [hdet] at hb2
    simp only [Option.some.injEq] at hb2
    have hov2 : overallOf p = some (jsRound (r * (6 / 10) + a * (4 / 10))) := by
      unfold overallOf relOf appOf
      rw [hr, ha]
      rcases h3 : jsGet p ("overall_score") with _ | v
      · rfl
      · cases v with
        | num q => exact absurd h3 (hov q)
        | null => rfl
        | bool b => rfl
        | str st => rfl
        | arr l2 => rfl
        | obj kvs2 => rfl
    constructor
    · rw [hres, hb]
    · rw [← hb2]
      show overallOf p = _
      exact hov2

theorem c7_witness :
    (resolveText baseMeta c7text = c7summary ∧
      c7summary.overall_score =
        some (jsRound (mkRat 80 1 * (6 / 10) + mkRat 50 1 * (4 / 10)))) ∧
    jsRound (mkRat 80 1 * (6 / 10) + mkRat 50 1 * (4 / 10)) = 68 := by
  refine ⟨?_, by with_unfolding_all decide⟩
  have h1 : jsonParse (extractJsonStr c7text) = some c7parsed := by
    with_unfolding_all rfl
  have h2 : buildSuccess baseMeta c7parsed = some c7summary := by
    with_unfolding_all rfl
  have h3 : ∀ q : ℚ, jsGet c7parsed ("overall_score") ≠ some (.num q) := by
    intro q h
    have hn : jsGet c7parsed ("overall_score") = none := by with_unfolding_all rfl
    rw [hn] at h
    exact Option.noConfusion h
  have hr : jsGet c7parsed ("reliability_score") = some (.num (mkRat 80 1)) := by
    with_unfolding_all rfl
  have ha : jsGet c7parsed ("applicability_score") = some (.num (mkRat 50 1)) := by
    with_unfolding_all rfl
  exact c7_overall_score baseMeta c7text c7parsed c7summary (mkRat 80 1) (mkRat 50 1)
    h1 h2 h3 hr ha

/-- Claim C7 counterexample: `c7badText` satisfies the claim's premise
(parse succeeds, `overall_score` absent, both component scores numeric 80
and 50), yet the `null` element of `authors_affiliations` aborts the
success branch, the resolver returns the degraded summary, and
`overall_score` is `none` instead of `some 68`. -/
theorem c7_counterexample :
    jsonParse (extractJsonStr c7badText) = some c7badParsed ∧
    jsGet c7badParsed ("overall_score") = none ∧
    jsGet c7badParsed ("reliability_score") = some (.num (mkRat 80 1)) ∧
    jsGet c7badParsed ("applicability_score") = some (.num (mkRat 50 1)) ∧
    buildSuccess baseMeta c7badParsed = none ∧
    resolveText baseMeta c7badText = degradedSummary baseMeta ∧
    (resolveText baseMeta c7badText).overall_score = none := by
  refine ⟨?_, ?_, ?_, ?_, ?_, ?_, ?_⟩ <;> with_unfolding_all rfl

/-- Claim C2 counterexample: a trailing-slash arXiv URL falls through unchanged. -/
theorem c2_counterexample :
    normalizePaperInput ("https://arxiv.org/") = "https://arxiv.org/" ∧
    strStartsWith ("https://arxiv.org/") ("https://arxiv.org/abs/") = false ∧
    strStartsWith ("https://arxiv.org/") ("https://web.archive.org/web/2/") = false := by
  decide

/-- Claim C2 (amended): the normalizer never throws and returns one of three shapes: an abs URL, an archive-proxy URL of the trimmed input, or the trimmed input itself (the fall-through shape the spec omits). -/
theorem c2_amended (s : String) :
    (∃ t, normalizePaperInput s = "https://arxiv.org/abs/" ++ t) ∨
    normalizePaperInput s = "https://web.archive.org/web/2/" ++ jsTrim s ∨
    normalizePaperInput s = jsTrim s := by
  unfold normalizePaperInput
  rcases hp : parseURL (jsTrim s) with _ | url
  · exact Or.inl ⟨jsTrim s, rfl⟩
  · by_cases hh : (url.hostname == "arxiv.org") = true
    · simp only [hh, if_true]
      rcases hpp : pathParts url.pathname with _ | ⟨p0, _ | ⟨p1, rest⟩⟩
      · right; right; rfl
      · left; exact ⟨stripPdfExt p0, rfl⟩
      · by_cases h0 : (p0 == "abs") = true
        · simp only [h0, if_true]
          right; right; trivial
        · simp only [Bool.not_eq_true] at h0
          simp only [h0, Bool.false_eq_true, if_false]
          by_cases h1 : (p0 == "pdf") = true
          · simp only [h1, if_true]
            left; exact ⟨stripPdfExt p1, rfl⟩
          · simp only [Bool.not_eq_true] at h1
            simp only [h1, Bool.false_eq_true, if_false]
            right; right; trivial
    · simp only [Bool.not_eq_true] at hh
      simp only [hh, Bool.false_eq_true, if_false]
      right; left; trivial

/-- A string whose data holds no colon cannot parse as a URL. -/
theorem parseURLTail_none_of_no_colon (l1 : List Char)
    (h : ∀ c ∈ l1, (c == ':') = false) : parseURLTail l1 = none := by
  cases l1 with
  | nil => rfl
  | cons c rest =>
    unfold parseURLTail
    by_cases hc : c.isAlpha
    · simp only [hc, Bool.not_true, Bool.false_eq_true, if_false]
      rcases hd : rest.dropWhile schemeChar with _ | ⟨d, t⟩
      · rfl
      · have hdm : (d == ':') = false := by
          apply h
          exact List.mem_cons_of_mem c ((List.dropWhile_sublist schemeChar).subset (hd ▸ List.mem_cons_self d t))
        split
        · next heq =>
            injection heq with h1 h2
            rw [h1] at hdm
            simp at hdm
        · rfl
    · simp [hc]

theorem mem_trimC0_filter {c : Char} {l : List Char}
    (h : c ∈ (trimC0 l).filter (fun c => !(isTabOrNL c))) : c ∈ l := by
  have h1 : c ∈ trimC0 l := List.mem_of_mem_filter h
  unfold trimC0 at h1
  rw [List.mem_reverse] at h1
  have h2 := (List.dropWhile_sublist isC0OrSpace).subset h1
  rw [List.mem_reverse] at h2
  exact (List.dropWhile_sublist isC0OrSpace).subset h2

theorem parseURL_none_of_no_colon (s : String)
    (h : ∀ c ∈ s.data, (c == ':') = false) : parseURL s = none := by
  unfold parseURL parseURLCore
  rw [parseURLTail_none_of_no_colon]
  · rfl
  · intro c hc
    exact h c (mem_trimC0_filter hc)

theorem splitOnChar_cons (sep c : Char) (t : List Char) :
    splitOnChar sep (c :: t) =
      if (c == sep) = true then [] :: splitOnChar sep t
      else
        match splitOnChar sep t with
        | [] => [[c]]
        | h :: r => (c :: h) :: r := rfl

theorem splitOnChar_ne_nil (sep : Char) (l : List Char) : splitOnChar sep l ≠ [] := by
  cases l with
  | nil => simp [splitOnChar]
  | cons c t =>
    rw [splitOnChar_cons]
    by_cases hc : (c == sep) = true
    · simp [hc]
    · simp only [Bool.not_eq_true] at hc
      simp only [hc, Bool.false_eq_true, if_false]
      rcases h : splitOnChar sep t with _ | ⟨h0, r⟩ <;> simp

theorem splitOnChar_no_sep (sep : Char) (l : List Char)
    (h : ∀ c ∈ l, (c == sep) = false) : splitOnChar sep l = [l] := by
  induction l with
  | nil => rfl
  | cons c t ih =>
    rw [splitOnChar_cons]
    have hc : (c == sep) = false := h c (List.mem_cons_self c t)
    simp only [hc, Bool.false_eq_true, if_false]
    rw [ih (fun d hd => h d (List.mem_cons_of_mem c hd))]

theorem splitOnChar_seg (sep : Char) (seg : List Char) (rest : List Char)
    (hseg : ∀ c ∈ seg, (c == sep) = false) :
    splitOnChar sep (seg ++ sep :: rest) = seg :: splitOnChar sep rest := by
  induction seg with
  | nil =>
    rw [List.nil_append, splitOnChar_cons]
    simp
  | cons c t ih =>
    have hc : (c == sep) = false := hseg c (List.mem_cons_self c t)
    rw [List.cons_append, splitOnChar_cons]
    simp only [hc, Bool.false_eq_true, if_false]
    rw [ih (fun d hd => hseg d (List.mem_cons_of_mem c hd))]

theorem data_append (a b : String) : (a ++ b).data = a.data ++ b.data := rfl

theorem mk_data (s : String) : String.mk s.data = s := rfl

theorem stripPdfExt_append (id : String) : stripPdfExt (id ++ ".pdf") = id := by
  unfold stripPdfExt stripPdfExtCore
  rw [data_append]
  simp only [List.reverse_append]
  have h4 : ((".pdf").data).reverse = [ 'f', 'd', 'p', '.'] := rfl
  rw [h4]
  simp only [List.cons_append, List.take, lowerL, List.map]
  norm_num
  exact mk_data id

theorem pathParts_two_seg (seg : String) (id : String)
    (hseg : ∀ c ∈ seg.data, (c == '/') = false)
    (hsegne : (seg == "") = false)
    (hid : ∀ c ∈ id.data, (c == '/') = false)
    (hidne : (id == "") = false) :
    pathParts ("/" ++ seg ++ "/" ++ id) = [seg, id] := by
  unfold pathParts
  have hd : ("/" ++ seg ++ "/" ++ id).data = '/' :: (seg.data ++ '/' :: id.data) := by
    rw [data_append, data_append, data_append]
    simp
  rw [hd]
  have h1 : splitOnChar '/' ('/' :: (seg.data ++ '/' :: id.data)) =
      [] :: seg.data :: splitOnChar '/' id.data := by
    rw [splitOnChar_cons]
    simp only [show (('/' : Char) == '/') = true from rfl, if_true]
    rw [splitOnChar_seg '/' seg.data id.data hseg]
  rw [h1, splitOnChar_no_sep '/' id.data hid]
  simp only [List.map, List.filter, mk_data]
  norm_num [hsegne, hidne]

theorem strAppend_assoc (a b c : String) : (a ++ b) ++ c = a ++ (b ++ c) := by
  cases a with
  | mk la =>
    cases b with
    | mk lb =>
      cases c with
      | mk lc => exact congrArg String.mk (List.append_assoc la lb lc)

theorem beq_empty_false {s : String} (h : s.data ≠ []) : (s == "") = false := by
  rw [beq_eq_false_iff_ne]
  intro he
  exact h (by rw [he])

theorem c5_abs_part (u id : String) (hu : jsTrim u = u) (hne : id.data ≠ [])
    (hsl : ∀ c ∈ id.data, (c == '/') = false)
    (hp : parseURL u = some ⟨"arxiv.org", "/abs/" ++ id⟩) :
    normalizePaperInput u = u := by
  have hpp : pathParts ("/abs/" ++ id) = ["abs", id] := by
    have heq : ("/abs/" : String) ++ id = "/" ++ "abs" ++ "/" ++ id := rfl
    rw [heq]
    exact pathParts_two_seg "abs" id (by decide) (by decide) hsl (beq_empty_false hne)
  unfold normalizePaperInput
  rw [hu, hp]
  simp [hpp]

theorem c5_pdf_part (u id : String) (hu : jsTrim u = u) (_hne : id.data ≠ [])
    (hsl : ∀ c ∈ id.data, (c == '/') = false)
    (hp : parseURL u = some ⟨"arxiv.org", "/pdf/" ++ id ++ ".pdf"⟩) :
    normalizePaperInput u = "https://arxiv.org/abs/" ++ id := by
  have hmem : ∀ c ∈ (id ++ ".pdf").data, (c == '/') = false := by
    intro c hc
    rw [data_append] at hc
    rcases List.mem_append.mp hc with h1 | h2
    · exact hsl c h1
    · fin_cases h2 <;> decide
  have hne2 : (id ++ ".pdf").data ≠ [] := by
    rw [data_append]
    simp
  have hpp : pathParts ("/pdf/" ++ id ++ ".pdf") = ["pdf", id ++ ".pdf"] := by
    have heq : ("/pdf/" : String) ++ id ++ ".pdf" = "/" ++ "pdf" ++ "/" ++ (id ++ ".pdf") := by
      rw [strAppend_assoc]
      rfl
    rw [heq]
    exact pathParts_two_seg "pdf" (id ++ ".pdf") (by decide) (by decide) hmem
      (beq_empty_false hne2)
  unfold normalizePaperInput
  rw [hu, hp]
  simp [hpp, stripPdfExt_append]

theorem c5_bare_part (s : String) (hu : jsTrim s = s)
    (h : ∀ c ∈ s.data, (c == ':') = false) :
    normalizePaperInput s = "https://arxiv.org/abs/" ++ s := by
  unfold normalizePaperInput
  rw [hu, parseURL_none_of_no_colon s h]

theorem c5_archive_part (u : String) (r : URLRec) (hu : jsTrim u = u)
    (hp : parseURL u = some r) (hh : r.hostname ≠ "arxiv.org") :
    normalizePaperInput u = "https://web.archive.org/web/2/" ++ u := by
  unfold normalizePaperInput
  rw [hu, hp]
  have : (r.hostname == "arxiv.org") = false := by
    rw [beq_eq_false_iff_ne]
    exact hh
  simp [this]

theorem c5_amended :
    (∀ u id : String, jsTrim u = u → id.data ≠ [] → (∀ c ∈ id.data, (c == '/') = false) →
      parseURL u = some ⟨"arxiv.org", "/abs/" ++ id⟩ → normalizePaperInput u = u) ∧
    (∀ u id : String, jsTrim u = u → id.data ≠ [] → (∀ c ∈ id.data, (c == '/') = false) →
      parseURL u = some ⟨"arxiv.org", "/pdf/" ++ id ++ ".pdf"⟩ →
      normalizePaperInput u = "https://arxiv.org/abs/" ++ id) ∧
    (∀ s : String, jsTrim s = s → (∀ c ∈ s.data, (c == ':') = false) →
      normalizePaperInput s = "https://arxiv.org/abs/" ++ s) ∧
    (∀ u : String, ∀ r : URLRec, jsTrim u = u → parseURL u = some r →
      r.hostname ≠ "arxiv.org" →
      normalizePaperInput u = "https://web.archive.org/web/2/" ++ u) :=
  ⟨c5_abs_part, c5_pdf_part, c5_bare_part, c5_archive_part⟩

theorem c5_counterexample :
    normalizePaperInput ("https://arxiv.org/pdf/math/0211159.pdf") =
      "https://arxiv.org/abs/math" ∧
    ("https://arxiv.org/abs/math" : String) ≠ "https://arxiv.org/abs/math/0211159" := by
  decide

theorem c5_amended_witness :
    normalizePaperInput ("https://arxiv.org/abs/2506.01667") =
      "https://arxiv.org/abs/2506.01667" ∧
    normalizePaperInput ("https://arxiv.org/pdf/2506.01667.pdf") =
      "https://arxiv.org/abs/2506.01667" ∧
    normalizePaperInput ("2506.01667") = "https://arxiv.org/abs/" ++ "2506.01667" ∧
    normalizePaperInput ("https://example.com/p") =
      "https://web.archive.org/web/2/" ++ "https://example.com/p" :=
  ⟨c5_amended.1 ("https://arxiv.org/abs/2506.01667") ("2506.01667")
     (by decide) (by decide) (by decide) (by decide),
   c5_amended.2.1 ("https://arxiv.org/pdf/2506.01667.pdf") ("2506.01667")
     (by decide) (by decide) (by decide) (by decide),
   c5_amended.2.2.1 ("2506.01667") (by decide) (by decide),
   c5_amended.2.2.2 ("https://example.com/p") ⟨"example.com", "/p"⟩
     (by decide) (by decide) (by decide)⟩

theorem toLower_bt_false (d : Char) (hd : (d == '`') = false) :
    (d.toLower == '`') = false := by
  unfold Char.toLower
  by_cases h : Char.toNat d ≥ 65 ∧ Char.toNat d ≤ 90
  · rw [if_pos h]
    obtain ⟨h1, h2⟩ := h
    set n := Char.toNat d with hn
    interval_cases n <;> decide
  · rw [if_neg h]
    exact hd

theorem findSubIdx_cons (c : Char) (t pat : List Char) :
    findSubIdx (c :: t) pat =
      if pat.isPrefixOf (c :: t) then some 0 else (findSubIdx t pat).map (· + 1) := rfl

theorem findSubIdx_prefix {l pat : List Char} (h : pat.isPrefixOf l = true) :
    findSubIdx l pat = some 0 := by
  cases l with
  | nil =>
    cases pat with
    | nil => rfl
    | cons p pt => simp [List.isPrefixOf] at h
  | cons c t =>
    rw [findSubIdx_cons]
    simp [h]

theorem findSubIdx_skip (p0 : Char) (pt seg r : List Char)
    (hseg : ∀ c ∈ seg, (c == p0) = false) :
    findSubIdx (seg ++ r) (p0 :: pt) = (findSubIdx r (p0 :: pt)).map (· + seg.length) := by
  induction seg with
  | nil =>
    simp only [List.nil_append, List.length_nil]
    rcases h : findSubIdx r (p0 :: pt) with _ | v <;> simp
  | cons c t ih =>
    have hc : (c == p0) = false := hseg c (List.mem_cons_self c t)
    have hp0c : (p0 == c) = false := by
      rw [beq_eq_false_iff_ne] at hc ⊢
      exact fun he => hc he.symm
    have hpre : (p0 :: pt).isPrefixOf (c :: (t ++ r)) = false := by
      simp [List.isPrefixOf, hp0c]
    rw [List.cons_append, findSubIdx_cons]
    simp only [hpre, Bool.false_eq_true, if_false]
    rw [ih (fun d hd => hseg d (List.mem_cons_of_mem c hd))]
    rcases h : findSubIdx r (p0 :: pt) with _ | v
    · simp
    · simp [Nat.add_assoc, Nat.add_comm]

example (l : List Char) : l.reverse.head? = l.getLast? := List.head?_reverse l
example (l1 l2 : List Char) : (l1 ++ l2).getLast? = l2.getLast?.or l1.getLast? :=
  List.getLast?_append
example (l1 l2 : List Char) (p : Char → Bool) :
    (l1 ++ l2).dropWhile p =
      if (l1.dropWhile p).isEmpty then l2.dropWhile p else l1.dropWhile p ++ l2 :=
  List.dropWhile_append
example (l1 l2 : List Char) : (l1 ++ l2).take l1.length = l1 := List.take_left l1 l2
example (n : Nat) (l1 l2 : List Char) (h : n ≤ l1.length) :
    (l1 ++ l2).drop n = l1.drop n ++ l2 := List.drop_append_of_le_length h

theorem jsTrimCore_eq_self (l : List Char)
    (h1 : ∀ c, l.head? = some c → jsIsSpace c = false)
    (h2 : ∀ c, l.getLast? = some c → jsIsSpace c = false) : jsTrimCore l = l := by
  cases l with
  | nil => rfl
  | cons c t =>
    unfold jsTrimCore
    rw [List.dropWhile_cons_of_neg (by simp [h1 c rfl])]
    rcases hrev : (c :: t).reverse with _ | ⟨d, t2⟩
    · exact absurd hrev (by simp)
    · have hd : (c :: t).getLast? = some d := by
        rw [← List.head?_reverse, hrev]
        rfl
      have hds : List.dropWhile jsIsSpace (d :: t2) = d :: t2 :=
        List.dropWhile_cons_of_neg (by simp [h2 d hd])
      have hrev2 : (d :: t2).reverse = c :: t := by
        rw [← hrev, List.reverse_reverse]
      rw [hds, hrev2]

theorem jsTrimCore_cons_space (c : Char) (l : List Char) (h : jsIsSpace c = true) :
    jsTrimCore (c :: l) = jsTrimCore l := by
  unfold jsTrimCore
  rw [List.dropWhile_cons_of_pos (by simp [h])]

theorem jsTrimCore_append_space (l : List Char) (w : Char) (h : jsIsSpace w = true) :
    jsTrimCore (l ++ [w]) = jsTrimCore l := by
  unfold jsTrimCore
  rw [List.dropWhile_append]
  by_cases he : (l.dropWhile jsIsSpace).isEmpty
  · rw [if_pos he]
    have h2 : ([w].dropWhile jsIsSpace) = [] := by simp [h]
    have h3 : l.dropWhile jsIsSpace = [] := by rwa [List.isEmpty_iff] at he
    rw [h2, h3]
  · rw [if_neg he, List.reverse_append]
    simp only [List.reverse_cons, List.reverse_nil, List.nil_append, List.singleton_append]
    rw [List.dropWhile_cons_of_pos (by simp [h])]

theorem jsTrimCore_nl_wrap (l : List Char) :
    jsTrimCore (('\n' :: l) ++ [ '\n']) = jsTrimCore l := by
  rw [List.cons_append, jsTrimCore_cons_space _ _ (by decide),
    jsTrimCore_append_space _ _ (by decide)]

theorem mem_jsTrimCore {c : Char} {l : List Char} (h : c ∈ jsTrimCore l) : c ∈ l := by
  unfold jsTrimCore at h
  rw [List.mem_reverse] at h
  have h2 := (List.dropWhile_sublist jsIsSpace).subset h
  rw [List.mem_reverse] at h2
  exact (List.dropWhile_sublist jsIsSpace).subset h2

theorem lowerL_append (a b : List Char) : lowerL (a ++ b) = lowerL a ++ lowerL b :=
  List.map_append Char.toLower a b

theorem fencedJson_data (j : String) :
    (fencedJson j).data = ("```json\n").data ++ (j.data ++ ("\n```").data) := by
  show ("```json\n" ++ j ++ "\n```" : String).data = _
  rw [data_append, data_append, List.append_assoc]

theorem fencedPlain_data (j : String) :
    (fencedPlain j).data = ("```\n").data ++ (j.data ++ ("\n```").data) := by
  show ("```\n" ++ j ++ "\n```" : String).data = _
  rw [data_append, data_append, List.append_assoc]

theorem trim_fencedJson (j : String) :
    jsTrimCore ((fencedJson j).data) = (fencedJson j).data := by
  apply jsTrimCore_eq_self
  · intro c hc
    rw [fencedJson_data] at hc
    have hcc : ('`' : Char) = c := by
      simpa using hc
    rw [← hcc]
    decide
  · intro c hc
    rw [fencedJson_data, ← List.append_assoc, List.getLast?_append] at hc
    have hcc : ('`' : Char) = c := by
      simpa using hc
    rw [← hcc]
    decide

theorem trim_fencedPlain (j : String) :
    jsTrimCore ((fencedPlain j).data) = (fencedPlain j).data := by
  apply jsTrimCore_eq_self
  · intro c hc
    rw [fencedPlain_data] at hc
    have hcc : ('`' : Char) = c := by
      simpa using hc
    rw [← hcc]
    decide
  · intro c hc
    rw [fencedPlain_data, ← List.append_assoc, List.getLast?_append] at hc
    have hcc : ('`' : Char) = c := by
      simpa using hc
    rw [← hcc]
    decide

theorem lowerL_bt_free {l : List Char} (h : ∀ c ∈ l, (c == '`') = false) :
    ∀ c ∈ lowerL l, (c == '`') = false := by
  intro c hc
  rcases List.mem_map.mp hc with ⟨d, hd, hdc⟩
  rw [← hdc]
  exact toLower_bt_false d (h d hd)

theorem fenceJson_fencedJson (j : String) (hb : ∀ c ∈ j.data, (c == '`') = false) :
    fenceJson ((fencedJson j).data) = some (jsTrimCore j.data) := by
  have hidx : findSubIdxCI ((fencedJson j).data) (("```json").data) = some 0 := by
    unfold findSubIdxCI
    apply findSubIdx_prefix
    rw [fencedJson_data, lowerL_append]
    rfl
  have hrest : List.drop (0 + ("```json").data.length) ((fencedJson j).data) =
      (('\n' :: j.data) ++ [ '\n']) ++ ("```").data := by
    rw [fencedJson_data]
    rw [List.drop_append_of_le_length (by decide)]
    simp
  have hseg : ∀ c ∈ ('\n' :: j.data) ++ [ '\n'], (c == '`') = false := by
    intro c hc
    rcases List.mem_append.mp hc with h1 | h2
    · rcases List.mem_cons.mp h1 with h3 | h4
      · rw [h3]; decide
      · exact hb c h4
    · rw [List.mem_singleton.mp h2]; decide
  have hfind : findSubIdx ((('\n' :: j.data) ++ [ '\n']) ++ ("```").data) (("```").data) =
      some (j.data.length + 2) := by
    rw [findSubIdx_skip '`' ([ '`', '`'] : List Char) _ _ hseg]
    have h0 : findSubIdx (("```").data) (("```").data) = some 0 := by decide
    rw [h0]
    simp only [Option.map_some']
    congr 1
    simp
  have htake : List.take (j.data.length + 2) ((('\n' :: j.data) ++ [ '\n']) ++ ("```").data) =
      ('\n' :: j.data) ++ [ '\n'] := by
    apply List.take_left'
    simp
  unfold fenceJson splitAfterCI
  rw [hidx]
  show (match findSubIdx (List.drop (0 + ("```json").data.length) ((fencedJson j).data))
          (("```").data) with
    | none => none
    | some i =>
      some (jsTrimCore (List.take i
        (List.drop (0 + ("```json").data.length) ((fencedJson j).data))))) =
    some (jsTrimCore j.data)
  rw [hrest, hfind]
  show some (jsTrimCore (List.take (j.data.length + 2)
    ((('\n' :: j.data) ++ [ '\n']) ++ ("```").data))) = _
  rw [htake, jsTrimCore_nl_wrap]

theorem findSubIdx_none_all (l : List Char) (p0 : Char) (pt : List Char)
    (h : ∀ c ∈ l, (c == p0) = false) : findSubIdx l (p0 :: pt) = none := by
  rw [show l = l ++ [] from (List.append_nil l).symm, findSubIdx_skip p0 pt l [] h]
  rfl

theorem findSubIdxCI_none_of_bt_free (l : List Char) (pt : List Char)
    (h : ∀ c ∈ l, (c == '`') = false) : findSubIdxCI l ('`' :: pt) = none := by
  unfold findSubIdxCI
  have he : lowerL ('`' :: pt) = '`' :: lowerL pt := rfl
  rw [he]
  exact findSubIdx_none_all _ '`' _ (lowerL_bt_free h)

theorem fencePlain_fencedPlain (j : String) (hb : ∀ c ∈ j.data, (c == '`') = false) :
    fencePlain ((fencedPlain j).data) = some (jsTrimCore j.data) := by
  have hidx : findSubIdxCI ((fencedPlain j).data) (("```").data) = some 0 := by
    unfold findSubIdxCI
    apply findSubIdx_prefix
    rw [fencedPlain_data, lowerL_append]
    rfl
  have hrest : List.drop (0 + ("```").data.length) ((fencedPlain j).data) =
      (('\n' :: j.data) ++ [ '\n']) ++ ("```").data := by
    rw [fencedPlain_data]
    rw [List.drop_append_of_le_length (by decide)]
    simp
  have hseg : ∀ c ∈ ('\n' :: j.data) ++ [ '\n'], (c == '`') = false := by
    intro c hc
    rcases List.mem_append.mp hc with h1 | h2
    · rcases List.mem_cons.mp h1 with h3 | h4
      · rw [h3]; decide
      · exact hb c h4
    · rw [List.mem_singleton.mp h2]; decide
  have hfind : findSubIdx ((('\n' :: j.data) ++ [ '\n']) ++ ("```").data) (("```").data) =
      some (j.data.length + 2) := by
    rw [findSubIdx_skip '`' ([ '`', '`'] : List Char) _ _ hseg]
    have h0 : findSubIdx (("```").data) (("```").data) = some 0 := by decide
    rw [h0]
    simp only [Option.map_some']
    congr 1
    simp
  have htake : List.take (j.data.length + 2) ((('\n' :: j.data) ++ [ '\n']) ++ ("```").data) =
      ('\n' :: j.data) ++ [ '\n'] := by
    apply List.take_left'
    simp
  unfold fencePlain splitAfterCI
  rw [hidx]
  show (match findSubIdx (List.drop (0 + ("```").data.length) ((fencedPlain j).data))
          (("```").data) with
    | none => none
    | some i =>
      some (jsTrimCore (List.take i
        (List.drop (0 + ("```").data.length) ((fencedPlain j).data))))) =
    some (jsTrimCore j.data)
  rw [hrest, hfind]
  show some (jsTrimCore (List.take (j.data.length + 2)
    ((('\n' :: j.data) ++ [ '\n']) ++ ("```").data))) = _
  rw [htake, jsTrimCore_nl_wrap]

theorem fenceJson_fencedPlain_none (j : String) (hb : ∀ c ∈ j.data, (c == '`') = false) :
    fenceJson ((fencedPlain j).data) = none := by
  have hidx : findSubIdxCI ((fencedPlain j).data) (("```json").data) = none := by
    unfold findSubIdxCI
    rw [fencedPlain_data, lowerL_append]
    have hA : lowerL (("```\n").data) = ("```\n").data := by decide
    have hB : lowerL (j.data ++ ("\n```").data) = lowerL j.data ++ ("\n```").data := by
      rw [lowerL_append]
      have : lowerL (("\n```").data) = ("\n```").data := by decide
      rw [this]
    rw [hA, hB]
    have hP : lowerL (("```json").data) = ("```json").data := by decide
    rw [hP]
    have e0 : (("```\n").data ++ (lowerL j.data ++ ("\n```").data)) =
        '`' :: ('`' :: ('`' :: ('\n' :: (lowerL j.data ++ ("\n```").data)))) := rfl
    rw [e0]
    have p0 : ((("```json").data).isPrefixOf
        ('`' :: ('`' :: ('`' :: ('\n' :: (lowerL j.data ++ ("\n```").data)))))) = false := rfl
    rw [findSubIdx_cons]
    simp only [p0, Bool.false_eq_true, if_false, Option.map_eq_none']
    have p1 : ((("```json").data).isPrefixOf
        ('`' :: ('`' :: ('\n' :: (lowerL j.data ++ ("\n```").data))))) = false := rfl
    rw [findSubIdx_cons]
    simp only [p1, Bool.false_eq_true, if_false, Option.map_eq_none']
    have p2 : ((("```json").data).isPrefixOf
        ('`' :: ('\n' :: (lowerL j.data ++ ("\n```").data)))) = false := rfl
    rw [findSubIdx_cons]
    simp only [p2, Bool.false_eq_true, if_false, Option.map_eq_none']
    have p3 : ((("```json").data).isPrefixOf
        ('\n' :: (lowerL j.data ++ ("\n```").data))) = false := rfl
    rw [findSubIdx_cons]
    simp only [p3, Bool.false_eq_true, if_false, Option.map_eq_none']
    rw [findSubIdx_skip '`' ([ '`', '`', 'j', 's', 'o', 'n'] : List Char) _ _
      (lowerL_bt_free hb)]
    have hnone : findSubIdx ([ '\n', '`', '`', '`'] : List Char)
        ('`' :: ([ '`', '`', 'j', 's', 'o', 'n'] : List Char)) = none := by decide
    rw [hnone]
    rfl
  unfold fenceJson splitAfterCI
  rw [hidx]
  rfl

theorem extractJsonStr_fencedJson (j : String) (hb : ∀ c ∈ j.data, (c == '`') = false) :
    extractJsonStr (fencedJson j) = jsTrim j := by
  unfold extractJsonStr
  rw [trim_fencedJson, fenceJson_fencedJson j hb]
  rfl

theorem extractJsonStr_fencedPlain (j : String) (hb : ∀ c ∈ j.data, (c == '`') = false) :
    extractJsonStr (fencedPlain j) = jsTrim j := by
  unfold extractJsonStr
  rw [trim_fencedPlain, fenceJson_fencedPlain_none j hb, fencePlain_fencedPlain j hb]
  rfl

theorem extractJsonStr_nofence (j : String) (hb : ∀ c ∈ j.data, (c == '`') = false) :
    extractJsonStr j = jsTrim j := by
  have hbt : ∀ c ∈ jsTrimCore j.data, (c == '`') = false :=
    fun c hc => hb c (mem_jsTrimCore hc)
  unfold extractJsonStr
  have h1 : fenceJson (jsTrimCore j.data) = none := by
    unfold fenceJson splitAfterCI
    rw [show (("```json").data) = '`' :: (("``json").data) from rfl]
    rw [findSubIdxCI_none_of_bt_free _ _ hbt]
    rfl
  have h2 : fencePlain (jsTrimCore j.data) = none := by
    unfold fencePlain splitAfterCI
    rw [show (("```").data) = '`' :: (("``").data) from rfl]
    rw [findSubIdxCI_none_of_bt_free _ _ hbt]
    rfl
  rw [h1, h2]
  rfl

/-- Claim C8 (amended): fence stripping is correct only for the two fence
shapes the code recognises - the literal `json`-tagged fence and the
untagged fence - and only when the inner JSON contains no backtick: then
the resolver parses the inner text and produces the same summary as for
the unfenced text.  Any other language tag is captured as part of the
payload and parsing fails (see the counterexample). -/
theorem c8_fence_stripping (meta : ArxivMeta) (j : String) (v : Json)
    (hb : ∀ c ∈ j.data, (c == '`') = false)
    (hv : jsonParse (jsTrim j) = some v) :
    extractJsonStr (fencedJson j) = jsTrim j ∧
    extractJsonStr (fencedPlain j) = jsTrim j ∧
    jsonParse (extractJsonStr (fencedJson j)) = some v ∧
    resolveText meta (fencedJson j) = resolveText meta j ∧
    resolveText meta (fencedPlain j) = resolveText meta j := by
  have h1 := extractJsonStr_fencedJson j hb
  have h2 := extractJsonStr_fencedPlain j hb
  have h3 := extractJsonStr_nofence j hb
  refine ⟨h1, h2, ?_, ?_, ?_⟩
  · rw [h1]
    exact hv
  · unfold resolveText
    rw [h1, h3]
  · unfold resolveText
    rw [h2, h3]

theorem c8_fence_witness :
    (∀ c ∈ ("\x7b\"one_liner\": \"hi\"\x7d" : String).data, (c == '`') = false) ∧
    jsonParse (jsTrim ("\x7b\"one_liner\": \"hi\"\x7d")) =
      some (.obj [("one_liner", .str ("hi"))]) ∧
    resolveText baseMeta (fencedJson ("\x7b\"one_liner\": \"hi\"\x7d")) =
      resolveText baseMeta ("\x7b\"one_liner\": \"hi\"\x7d") ∧
    resolveText baseMeta (fencedPlain ("\x7b\"one_liner\": \"hi\"\x7d")) =
      resolveText baseMeta ("\x7b\"one_liner\": \"hi\"\x7d") :=
  ⟨by decide, by rfl,
   (c8_fence_stripping baseMeta ("\x7b\"one_liner\": \"hi\"\x7d")
     (.obj [("one_liner", .str ("hi"))]) (by decide) (by rfl)).2.2.2.1,
   (c8_fence_stripping baseMeta ("\x7b\"one_liner\": \"hi\"\x7d")
     (.obj [("one_liner", .str ("hi"))]) (by decide) (by rfl)).2.2.2.2⟩

/-- Claim C8 counterexample, two failing cases the original claim covers:
valid JSON containing a triple backtick breaks the fence extraction, and a
fence with any language tag other than `json` (here `javascript`, around
backtick-free valid JSON) is not recognised - the tag is captured as part
of the payload, parsing fails and the resolver degrades although the
unfenced text parses fine. -/
theorem c8_counterexample :
    ((jsonParse (jsTrim ("\x7b\"a\": 1\x7d"))).isSome = true ∧
      resolveText baseMeta ("```javascript\n\x7b\"a\": 1\x7d\n```") =
        degradedSummary baseMeta ∧
      (resolveText baseMeta ("\x7b\"a\": 1\x7d")).one_liner = .str ("")) ∧
    (jsonParse (jsTrim ("\x7b\"a\": \"x``` y\"\x7d"))).isSome = true ∧
    resolveText baseMeta (fencedJson ("\x7b\"a\": \"x``` y\"\x7d")) =
      degradedSummary baseMeta ∧
    (resolveText baseMeta ("\x7b\"a\": \"x``` y\"\x7d")).one_liner = .str ("") ∧
    (resolveText baseMeta (fencedJson ("\x7b\"a\": \"x``` y\"\x7d"))).one_liner ≠
      (resolveText baseMeta ("\x7b\"a\": \"x``` y\"\x7d")).one_liner := by
  refine ⟨⟨by with_unfolding_all rfl, by with_unfolding_all rfl,
    by with_unfolding_all rfl⟩, by rfl, by rfl, by rfl, ?_⟩
  have hl : (resolveText baseMeta (fencedJson ("\x7b\"a\": \"x``` y\"\x7d"))).one_liner =
      .str ("Summary generation failed, but paper metadata was retrieved.") := by rfl
  have hr : (resolveText baseMeta ("\x7b\"a\": \"x``` y\"\x7d")).one_liner = .str ("") := by rfl
  rw [hl, hr]
  intro h
  injection h with h2
  exact absurd h2 (by decide)
